import Mathlib

set_option maxRecDepth 100000
set_option maxHeartbeats 1000000

/-!
Verification of the Code-Hex/container-registry server against its design
specification.  The Go sources are shallowly embedded: the filesystem is an
explicit state (association list of files plus a list of created
directories), Go string paths are component lists produced by the same
join-and-clean discipline as `path/filepath`, and each storage operation and
HTTP handler becomes a Lean function from request data and filesystem to a
new filesystem plus a response or typed error.
-/

namespace Registry

/-! ## Paths

Go's `filepath.Join` concatenates the elements with `/` and then runs
`filepath.Clean`, which drops empty and `.` components and resolves `..`
against the preceding component.  We represent a cleaned relative path as a
`List String` of components (`[]` is Go's `"."`). -/

abbrev Path := List String

/-- Split a list of characters on `/` (the component separator). -/
def splitChars : List Char → List Char → List (List Char)
  | cur, [] => [cur.reverse]
  | cur, c :: cs =>
    if c = '/' then cur.reverse :: splitChars [] cs
    else splitChars (c :: cur) cs

/-- Split a Go path string into its raw (uncleaned) components. -/
def splitPath (s : String) : List String :=
  (splitChars [] s.data).map List.asString

/-- One step of `filepath.Clean`'s component processing: the accumulator is
the reversed stack of resolved components. -/
def cleanStep (stack : List String) (c : String) : List String :=
  if c = "" ∨ c = "." then stack
  else if c = ".." then
    match stack with
    | [] => [".."]
    | top :: rest => if top = ".." then ".." :: stack else rest
  else c :: stack

/-- `filepath.Clean` on a relative path given as raw components. -/
def cleanParts (cs : List String) : Path :=
  (cs.foldl cleanStep []).reverse

/-- The configurable base directory (`registry.BasePath`, default
`"testdata"`). -/
def BasePath : String := "testdata"

/-- `registry.PathJoinWithBase`: joins base, name and parts with `/` and
cleans the result, exactly as `filepath.Join` does. -/
def PathJoinWithBase (name : String) (p : List String) : Path :=
  cleanParts (splitPath BasePath ++ splitPath name ++ p.flatMap splitPath)

/-- A plain path component: usable verbatim as one path element.  Repository
names are slash-separated sequences of such components; tags, digests and
session ids are single ones. -/
def PComp (s : String) : Prop :=
  s ≠ "" ∧ s ≠ "." ∧ s ≠ ".." ∧ ('/' ∉ s.data)

instance (s : String) : Decidable (PComp s) := by
  unfold PComp; infer_instance

/-- A well-formed repository name: nonempty and made of plain components. -/
def GoodName (n : String) : Prop :=
  splitPath n ≠ [] ∧ ∀ c ∈ splitPath n, PComp c

instance (n : String) : Decidable (GoodName n) := by
  unfold GoodName; infer_instance

/-! ## Filesystem model

Files carry byte contents (`List Nat`, each < 256 in practice).  Directories
exist either because `os.MkdirAll` recorded them or implicitly as proper
prefixes of recorded paths.  `ioutil.ReadDir` returns entries sorted by
name, as in Go. -/

structure FS where
  files : List (Path × List Nat)
  dirs : List Path
deriving DecidableEq

namespace FS

/-- The empty filesystem. -/
def empty : FS := ⟨[], []⟩

/-- First-match association lookup over the file entries. -/
def assocLookup : List (Path × List Nat) → Path → Option (List Nat)
  | [], _ => none
  | (q, c) :: t, p => if q = p then some c else assocLookup t p

/-- Look up a file's contents. -/
def lookupFile (fs : FS) (p : Path) : Option (List Nat) :=
  assocLookup fs.files p

def fileExists (fs : FS) (p : Path) : Bool :=
  (fs.lookupFile p).isSome

/-- Is `p` a strict prefix of `q`? -/
def strictPrefix (p q : Path) : Bool :=
  decide (p <+: q) && decide (p ≠ q)

/-- A directory exists at `p` if it was recorded (or is a prefix of a
recorded one), or if it is a strict prefix of some file's path. -/
def dirExists (fs : FS) (p : Path) : Bool :=
  fs.dirs.any (fun d => p = d || strictPrefix p d) ||
    fs.files.any (fun e => strictPrefix p e.1)

/-- `os.Stat` errors: `ENOENT` or `ENOTDIR`. -/
inductive StatErr | notExist | notDir
deriving DecidableEq

/-- `os.Stat`: succeeds (`none`) when a file or directory is at `p`;
`ENOTDIR` when some strict prefix of `p` is a regular file; otherwise
`ENOENT`. -/
def statE (fs : FS) (p : Path) : Option StatErr :=
  if fs.fileExists p || fs.dirExists p then none
  else if fs.files.any (fun e => strictPrefix e.1 p) then some .notDir
  else some .notExist

/-- `os.Create`: create or truncate the file at `p`. -/
def createFile (fs : FS) (p : Path) (c : List Nat) : FS :=
  ⟨(p, c) :: fs.files.filter (fun e => e.1 ≠ p), fs.dirs⟩

/-- `os.MkdirAll`: record the directory (parents become implicit
prefixes). -/
def mkdirAll (fs : FS) (p : Path) : FS :=
  ⟨fs.files, p :: fs.dirs⟩

/-- Delete a file entry (no error reporting). -/
def deleteFile (fs : FS) (p : Path) : FS :=
  ⟨fs.files.filter (fun e => e.1 ≠ p), fs.dirs⟩

/-- `os.RemoveAll`: drop everything at or below `p`. -/
def removeAll (fs : FS) (p : Path) : FS :=
  ⟨fs.files.filter (fun e => ¬ p <+: e.1), fs.dirs.filter (fun d => ¬ p <+: d)⟩

/-- Names of the immediate children of directory `p`, unsorted and possibly
with duplicates. -/
def childNamesRaw (fs : FS) (p : Path) : List String :=
  (fs.files.map (·.1) ++ fs.dirs).filterMap fun q =>
    if p <+: q ∧ q.length > p.length then (q.drop p.length).head? else none

/-- Byte-order comparison of names (UTF-8 byte order equals code-point
order), matching Go's `ioutil.ReadDir` sort. -/
def charListLt : List Char → List Char → Bool
  | [], [] => false
  | [], _ :: _ => true
  | _ :: _, [] => false
  | c :: cs, d :: ds =>
    if c.toNat < d.toNat then true
    else if c.toNat = d.toNat then charListLt cs ds
    else false

def strLt (a b : String) : Bool := charListLt a.data b.data

/-- Insertion sort by name. -/
def insertSorted (s : String) : List String → List String
  | [] => [s]
  | t :: ts => if strLt s t then s :: t :: ts else t :: insertSorted s ts

def sortNames : List String → List String
  | [] => []
  | s :: ss => insertSorted s (sortNames ss)

/-- Sorted, deduplicated entry names of a directory. -/
def childNames (fs : FS) (p : Path) : List String :=
  sortNames ((fs.childNamesRaw p).dedup)

/-- A Go error value as the handlers distinguish them. -/
inductive GoErr
  /-- a typed `*errors.Error` -/
  | typed (code : String) (message : String) (statusCode : Nat)
      (detail : Option String)
  /-- an `*os.PathError` with `ENOENT` -/
  | pathNotExist (p : Path)
  /-- an `*os.PathError` with `ENOTDIR` -/
  | pathNotDir (p : Path)
  /-- any other untyped error (`fmt.Errorf`, ...) -/
  | misc (msg : String)
deriving DecidableEq

/-- `ioutil.ReadDir`: sorted entry names, or the stat-like error. -/
def readDir (fs : FS) (p : Path) : Except GoErr (List String) :=
  if fs.dirExists p then .ok (fs.childNames p)
  else if fs.fileExists p || fs.files.any (fun e => strictPrefix e.1 p) then
    .error (.pathNotDir p)
  else .error (.pathNotExist p)

/-- `os.Rename` for a regular file. -/
def rename (fs : FS) (old new : Path) : Except GoErr FS :=
  match fs.lookupFile old with
  | some c => .ok ((fs.deleteFile old).createFile new c)
  | none => .error (.pathNotExist old)

/-- `os.Remove` with the error discarded (as the source does): removes a
file, or an empty recorded directory; otherwise leaves the state alone. -/
def removeIgnore (fs : FS) (p : Path) : FS :=
  if fs.fileExists p then fs.deleteFile p
  else if fs.dirExists p && (fs.childNames p).isEmpty then
    ⟨fs.files, fs.dirs.filter (fun d => d ≠ p)⟩
  else fs

/-- `os.FileInfo` as consumed by the handlers: name and size. -/
structure FileInfo where
  name : String
  size : Nat
deriving DecidableEq

/-- Size reported for a directory entry: the file's length, 0 for
subdirectories. -/
def entrySize (fs : FS) (p : Path) : Nat :=
  match fs.lookupFile p with
  | some c => c.length
  | none => 0

end FS

/-! ## SHA-256

`crypto/sha256` as called by `CreateManifest` and used to address blobs:
the standard FIPS 180-4 algorithm on byte lists, written with fuel-based
recursion so that the kernel can evaluate concrete digests. -/

namespace SHA


def M32 : Nat := 4294967296

def add32 (a b : Nat) : Nat := (a + b) % M32

def rotr (x n : Nat) : Nat := ((x >>> n) ||| (x <<< (32 - n))) % M32

def bsig0 (x : Nat) : Nat := (rotr x 2) ^^^ (rotr x 13) ^^^ (rotr x 22)
def bsig1 (x : Nat) : Nat := (rotr x 6) ^^^ (rotr x 11) ^^^ (rotr x 25)
def ssig0 (x : Nat) : Nat := (rotr x 7) ^^^ (rotr x 18) ^^^ (x >>> 3)
def ssig1 (x : Nat) : Nat := (rotr x 17) ^^^ (rotr x 19) ^^^ (x >>> 10)

def ch (x y z : Nat) : Nat := (x &&& y) ^^^ ((x ^^^ (M32 - 1)) &&& z)
def maj (x y z : Nat) : Nat := (x &&& y) ^^^ (x &&& z) ^^^ (y &&& z)

def K : List Nat :=
  [0x428A2F98, 0x71374491, 0xB5C0FBCF, 0xE9B5DBA5, 0x3956C25B, 0x59F111F1,
   0x923F82A4, 0xAB1C5ED5, 0xD807AA98, 0x12835B01, 0x243185BE, 0x550C7DC3,
   0x72BE5D74, 0x80DEB1FE, 0x9BDC06A7, 0xC19BF174, 0xE49B69C1, 0xEFBE4786,
   0x0FC19DC6, 0x240CA1CC, 0x2DE92C6F, 0x4A7484AA, 0x5CB0A9DC, 0x76F988DA,
   0x983E5152, 0xA831C66D, 0xB00327C8, 0xBF597FC7, 0xC6E00BF3, 0xD5A79147,
   0x06CA6351, 0x14292967, 0x27B70A85, 0x2E1B2138, 0x4D2C6DFC, 0x53380D13,
   0x650A7354, 0x766A0ABB, 0x81C2C92E, 0x92722C85, 0xA2BFE8A1, 0xA81A664B,
   0xC24B8B70, 0xC76C51A3, 0xD192E819, 0xD6990624, 0xF40E3585, 0x106AA070,
   0x19A4C116, 0x1E376C08, 0x2748774C, 0x34B0BCB5, 0x391C0CB3, 0x4ED8AA4A,
   0x5B9CCA4F, 0x682E6FF3, 0x748F82EE, 0x78A5636F, 0x84C87814, 0x8CC70208,
   0x90BEFFFA, 0xA4506CEB, 0xBEF9A3F7, 0xC67178F2]

def H0 : List Nat :=
  [0x6A09E667, 0xBB67AE85, 0x3C6EF372, 0xA54FF53A,
   0x510E527F, 0x9B05688C, 0x1F83D9AB, 0x5BE0CD19]

/-- Pad a message (list of bytes) to a multiple of 64 bytes. -/
def pad (msg : List Nat) : List Nat :=
  let l := msg.length
  let zeros := (55 - (l % 64) + 64) % 64
  msg ++ [0x80] ++ List.replicate zeros 0 ++
    (List.range 8).map (fun i => ((l * 8) >>> ((7 - i) * 8)) % 256)

/-- Big-endian 32-bit words from bytes. -/
def toWords : List Nat → List Nat
  | b0 :: b1 :: b2 :: b3 :: rest =>
    (((b0 * 256 + b1) * 256 + b2) * 256 + b3) :: toWords rest
  | _ => []

/-- Extend the 16 words by `n` more via the message schedule. -/
def extendW : Nat → List Nat → List Nat
  | 0, w => w
  | n + 1, w =>
    let i := w.length
    extendW n (w ++ [add32 (add32 (ssig1 (w.getD (i-2) 0)) (w.getD (i-7) 0))
      (add32 (ssig0 (w.getD (i-15) 0)) (w.getD (i-16) 0))])

structure St where
  a : Nat
  b : Nat
  c : Nat
  d : Nat
  e : Nat
  f : Nat
  g : Nat
  h : Nat

def round (w : List Nat) (s : St) (i : Nat) : St :=
  let t1 := add32 s.h (add32 (bsig1 s.e)
    (add32 (ch s.e s.f s.g) (add32 (K.getD i 0) (w.getD i 0))))
  let t2 := add32 (bsig0 s.a) (maj s.a s.b s.c)
  ⟨add32 t1 t2, s.a, s.b, s.c, add32 s.d t1, s.e, s.f, s.g⟩

def rounds (w : List Nat) (s : St) : Nat → St
  | 0 => s
  | n + 1 => round w (rounds w s n) n

def compress (hs : List Nat) (block : List Nat) : List Nat :=
  let w := extendW 48 (toWords block)
  match hs with
  | [a, b, c, d, e, f, g, h] =>
    let s := rounds w ⟨a, b, c, d, e, f, g, h⟩ 64
    [add32 a s.a, add32 b s.b, add32 c s.c, add32 d s.d,
     add32 e s.e, add32 f s.f, add32 g s.g, add32 h s.h]
  | _ => hs

/-- Fold the compression function over 64-byte blocks (fuel-based so the
kernel can evaluate it). -/
def foldBlocks : Nat → List Nat → List Nat → List Nat
  | _, hs, [] => hs
  | 0, hs, _ => hs
  | n + 1, hs, l => foldBlocks n (compress hs (l.take 64)) (l.drop 64)

def sha256 (msg : List Nat) : List Nat :=
  let padded := pad msg
  let hs := foldBlocks padded.length H0 padded
  hs.flatMap fun w => [(w >>> 24) % 256, (w >>> 16) % 256, (w >>> 8) % 256, w % 256]

def hexChar (n : Nat) : Char :=
  Char.ofNat (if n < 10 then 48 + n else 87 + n)

def bytesToHex (bs : List Nat) : List Char :=
  bs.flatMap fun b => [hexChar (b / 16), hexChar (b % 16)]

def sha256hex (msg : List Nat) : String :=
  (bytesToHex (sha256 msg)).asString

end SHA

/-- `fmt.Sprintf "sha256:%x" (hash.Sum nil)`. -/
def sha256sumStr (msg : List Nat) : String :=
  "sha256:" ++ SHA.sha256hex msg

/-! ## Error model (`internal/errors`)

`errors.Error` carries an underlying cause, an HTTP status code, an OCI
code, a message and an optional detail.  `Wrap` first applies
`WithCodeUnknown` and then the given options left to right. -/

structure RegError where
  err : Option FS.GoErr
  statusCode : Nat
  code : String
  message : String
  detail : Option String
deriving DecidableEq

/-- `errors.WrapOption`. -/
abbrev WrapOption := RegError → RegError

/-- `errors.WithStatusCode`. -/
def WithStatusCode (sc : Nat) : WrapOption :=
  fun e => { e with statusCode := sc }

/-- `errors.WithDetail`. -/
def WithDetail (d : String) : WrapOption :=
  fun e => { e with detail := some d }

/-- `errors.WithCodeUnknown`. -/
def WithCodeUnknown : WrapOption :=
  fun e => { e with code := "UNKNOWN", message := "unknown error",
                    statusCode := 500 }

/-- `errors.WithCodeUnsupported`. -/
def WithCodeUnsupported : WrapOption :=
  fun e => { e with code := "UNSUPPORTED",
                    message := "The operation is unsupported.",
                    statusCode := 405 }

/-- `errors.WithCodeDigestInvalid`. -/
def WithCodeDigestInvalid : WrapOption :=
  fun e => { e with code := "DIGEST_INVALID",
                    message := "provided digest did not match uploaded content",
                    statusCode := 400 }

/-- `errors.WithCodeTagInvalid`. -/
def WithCodeTagInvalid : WrapOption :=
  fun e => { e with code := "TAG_INVALID",
                    message := "manifest tag did not match URI",
                    statusCode := 400 }

/-- `errors.WithCodeNameUnknown`. -/
def WithCodeNameUnknown : WrapOption :=
  fun e => { e with code := "NAME_UNKNOWN",
                    message := "repository name not known to registry",
                    statusCode := 404 }

/-- `errors.WithCodeManifestUnknown`. -/
def WithCodeManifestUnknown : WrapOption :=
  fun e => { e with code := "MANIFEST_UNKNOWN", message := "manifest unknown",
                    statusCode := 404 }

/-- `errors.WithCodeManifestInvalid`. -/
def WithCodeManifestInvalid : WrapOption :=
  fun e => { e with code := "MANIFEST_INVALID", message := "manifest invalid",
                    statusCode := 400 }

/-- `errors.WithCodeBlobUnknown`. -/
def WithCodeBlobUnknown : WrapOption :=
  fun e => { e with code := "BLOB_UNKNOWN",
                    message := "blob unknown to registry",
                    statusCode := 404 }

/-- `errors.WithCodeBlobUploadUnknown`. -/
def WithCodeBlobUploadUnknown : WrapOption :=
  fun e => { e with code := "BLOB_UPLOAD_UNKNOWN",
                    message := "blob upload unknown to registry",
                    statusCode := 416 }

/-- `errors.Wrap`: start from the cause, initialize with `WithCodeUnknown`,
then apply the options in order. -/
def Wrap (err : Option FS.GoErr) (opts : List WrapOption) : RegError :=
  opts.foldl (fun e o => o e)
    (WithCodeUnknown { err := err, statusCode := 0, code := "", message := "",
                       detail := none })

/-- The error value a handler returns: either a typed `*errors.Error` or a
plain Go error. -/
inductive HErr
  | typed (e : RegError)
  | go (e : FS.GoErr)
deriving DecidableEq

instance {e a : Type} [DecidableEq e] [DecidableEq a] :
    DecidableEq (Except e a) := fun x y => by
  cases x with
  | ok v => cases y with
    | ok w => exact if h : v = w then .isTrue (by rw [h]) else .isFalse (by simp [h])
    | error w => exact .isFalse (by simp)
  | error v => cases y with
    | ok w => exact .isFalse (by simp)
    | error w => exact if h : v = w then .isTrue (by rw [h]) else .isFalse (by simp [h])

/-- Go `errors.Unwrap`: `*errors.Error` (as defined in this package) has no
`Unwrap` method, so unwrapping it yields nil; `*os.PathError` unwraps to its
`syscall.Errno`. -/
def errorsUnwrap : Option HErr → Option HErr
  | some (.go (.pathNotExist p)) => some (.go (.pathNotExist p))
  | some (.go (.pathNotDir p)) => some (.go (.pathNotDir p))
  | _ => none

/-- Go `os.IsNotExist` on an optional error. -/
def osIsNotExist : Option HErr → Bool
  | some (.go (.pathNotExist _)) => true
  | _ => false

/-- JSON string rendering of the envelope fields (codes and messages are
plain ASCII constants, so no escaping is involved). -/
def errorEnvelope (e : RegError) : String :=
  "\x7b\x22code\x22:\x22" ++ e.code ++ "\x22,\x22message\x22:\x22" ++
    e.message ++ "\x22" ++
    (match e.detail with
     | some d => ",\x22detail\x22:\x22" ++ d ++ "\x22"
     | none => "") ++ "\x7d"

/-- An HTTP response as far as the claims observe it. -/
structure Resp where
  status : Nat
  contentType : Option String
  headers : List (String × String)
  body : List Nat
deriving DecidableEq

def bytesOfString (s : String) : List Nat :=
  s.data.map Char.toNat

/-- `errors.ServeJSON` on a non-nil error: set the JSON content type,
convert an untyped error through `Wrap`, write the error's status code and
the envelope. -/
def ServeJSON (e : HErr) : Resp :=
  let err : RegError :=
    match e with
    | .typed t => t
    | .go g => Wrap g []
  { status := err.statusCode,
    contentType := some "application/json; charset=utf-8",
    headers := [],
    body := bytesOfString (errorEnvelope err) ++ [10] }

/-- What a handler writes before returning: an optional explicit status and
headers/body.  `Handler.ServeHTTP` leaves a nil-error response alone (Go
defaults the status to 200) and renders a returned error through
`ServeJSON`. -/
structure HandlerOut where
  status : Option Nat
  contentType : Option String
  headers : List (String × String)
  body : List Nat
  err : Option HErr
deriving DecidableEq

/-- The `Handler.ServeHTTP` adapter from `handler.go`. -/
def runHandler (out : HandlerOut) : Resp :=
  match out.err with
  | none =>
    { status := out.status.getD 200, contentType := out.contentType,
      headers := out.headers, body := out.body }
  | some e => ServeJSON e

/-! ## Content helpers (`internal/registry`) -/

/-- The gzip signature as matched by the `filetype` library's `Gz` matcher:
`buf[0] == 0x1F && buf[1] == 0x8B && buf[2] == 0x8` (with `len(buf) > 2`). -/
def isGzip : List Nat → Bool
  | b0 :: b1 :: b2 :: _ => b0 = 0x1F && b1 = 0x8B && b2 = 0x8
  | _ => false

/-- The zip signature as matched by the `filetype` library's `Zip` matcher:
`buf[0] == 0x50 && buf[1] == 0x4B && (buf[2] == 0x3 || 0x5 || 0x7) &&
(buf[3] == 0x4 || 0x6 || 0x8)`. -/
def isZip : List Nat → Bool
  | b0 :: b1 :: b2 :: b3 :: _ =>
    b0 = 0x50 && b1 = 0x4B && (b2 = 0x3 || b2 = 0x5 || b2 = 0x7) &&
      (b3 = 0x4 || b3 = 0x6 || b3 = 0x8)
  | _ => false

/-- Model of `filetype.IsArchive` (library `h2non/filetype`, not part of
this repository): true when the 8 KiB sniff buffer matches one of the
library's archive signatures.  The library recognizes about thirty archive
types (gzip, zip, tar, rar, bz2, 7z, xz, pdf, exe, ...); this model keeps
the two signatures the theorems evaluate, gzip and zip, and is used only
at concrete inputs where it agrees with the library. -/
def filetypeIsArchive (buf : List Nat) : Bool :=
  isGzip buf || isZip buf

/-- `registry.detectExt`, parameterized by the library predicate
`filetype.IsArchive`. -/
def detectExt (isArch : List Nat → Bool) (buf : List Nat) : String :=
  if isArch buf then ".tar.gz" else ".json"

/-- The sniff buffer: `make([]byte, 8192)` after one `Read` — the first
(up to) 8 KiB of the stream, zero-padded to 8192 bytes as `detectExt`
receives the whole buffer. -/
def sniffBuffer (body : List Nat) : List Nat :=
  body.take 8192 ++ List.replicate (8192 - min 8192 body.length) 0

/-- `registry.CreateLayer`: sniff the first 8 KiB, choose the extension,
and write `dir/layer.<ext>` as the sniffed bytes followed by the remainder
of the stream.  Returns the new state, the byte count reported by
`io.Copy`, and the file name written. -/
def CreateLayer (isArch : List Nat → Bool) (body : List Nat) (dir : Path)
    (fs : FS) : FS × Nat × String :=
  let filename := "layer" ++ detectExt isArch (sniffBuffer body)
  let content := body.take 8192 ++ body.drop 8192
  ((fs.createFile (dir ++ [filename]) content), content.length, filename)

/-- `registry.PickupFileinfo`: metadata of the first entry (in `ReadDir`'s
sorted order) of `dir`; an error when the directory is missing or empty. -/
def PickupFileinfo (fs : FS) (dir : Path) : Except FS.GoErr FS.FileInfo :=
  match fs.readDir dir with
  | .error e => .error e
  | .ok [] => .error (.misc "there is no file in directory")
  | .ok (e1 :: _) => .ok ⟨e1, fs.entrySize (dir ++ [e1])⟩

/-! ## Storage engine (`internal/storage`, type `Local`) -/

/-- `tags`, the per-repository tag directory name (`baseTagDir`). -/
def baseTagDir : String := "tags"

/-- `Local.PutBlobByReference`: create `B/name/ref` and write one layer
file into it via `CreateLayer`. -/
def PutBlobByReference (isArch : List Nat → Bool) (ref imgName : String)
    (body : List Nat) (fs : FS) : FS × Nat :=
  let path := PathJoinWithBase imgName [ref]
  let fs1 := fs.mkdirAll path
  let (fs2, size, _) := CreateLayer isArch body path fs1
  (fs2, size)

/-- `Local.EnsurePutBlobBySession`: make the digest directory, pick the
session directory's file, rename it into the digest directory and remove
the session directory (ignoring a removal failure).  Errors are returned
as-is (untyped). -/
def EnsurePutBlobBySession (sessionID imgName digest : String) (fs : FS) :
    FS × Except HErr Unit :=
  let newDir := PathJoinWithBase imgName [digest]
  let fs1 := fs.mkdirAll newDir
  let oldDir := PathJoinWithBase imgName [sessionID]
  match PickupFileinfo fs1 oldDir with
  | .error e => (fs1, .error (.go e))
  | .ok fi =>
    match fs1.rename (oldDir ++ [fi.name]) (newDir ++ [fi.name]) with
    | .error e => (fs1, .error (.go e))
    | .ok fs2 => (fs2.removeIgnore oldDir, .ok ())

/-- `Local.CheckBlobByDigest` (called `CheckBlobByReference` by the
handlers): stat the blob directory, wrap a missing directory into a typed
404, otherwise pick the contained file's metadata. -/
def CheckBlobByReference (imgName ref : String) (fs : FS) :
    Except HErr FS.FileInfo :=
  let dir := PathJoinWithBase imgName [ref]
  if fs.statE dir = some .notExist then
    .error (.typed (Wrap (some (.pathNotExist dir)) [WithStatusCode 404]))
  else
    match PickupFileinfo fs dir with
    | .error e => .error (.go e)
    | .ok fi => .ok fi

/-- `Local.FindBlobByImage`: stat the blob directory (typed `BLOB_UNKNOWN`
when absent), pick its file and open it.  Returns the file name and its
bytes. -/
def FindBlobByImage (name digest : String) (fs : FS) :
    Except HErr (String × List Nat) :=
  let dir := PathJoinWithBase name [digest]
  if fs.statE dir = some .notExist then
    .error (.typed (Wrap (some (.pathNotExist dir)) [WithCodeBlobUnknown]))
  else
    match PickupFileinfo fs dir with
    | .error e => .error (.go e)
    | .ok fi =>
      match fs.lookupFile (dir ++ [fi.name]) with
      | some c => .ok (fi.name, c)
      | none => .error (.go (.misc "open failed"))

/-- `Local.DeleteManifestByImage`: stat `B/name/tags/tag/manifest.json`;
when that stat reports `ENOENT` return a typed 400; otherwise remove
`B/name/tags/tag` recursively.  (The tag entry is a regular file, so the
stat on an existing tag fails with `ENOTDIR`, which Go 1.15's
`os.IsNotExist` does not match.) -/
def DeleteManifestByImage (name tag : String) (fs : FS) :
    FS × Except HErr Unit :=
  let tagDir := PathJoinWithBase name [baseTagDir, tag]
  let manifest := tagDir ++ ["manifest.json"]
  if fs.statE manifest = some .notExist then
    (fs, .error (.typed (Wrap (some (.pathNotExist manifest)) [WithStatusCode 400])))
  else
    (fs.removeAll tagDir, .ok ())

/-- `Local.DeleteBlobByImage`: typed `BLOB_UNKNOWN` when the digest
directory is absent, else remove it recursively. -/
def DeleteBlobByImage (name digest : String) (fs : FS) :
    FS × Except HErr Unit :=
  let dir := PathJoinWithBase name [digest]
  if fs.statE dir = some .notExist then
    (fs, .error (.typed (Wrap (some (.pathNotExist dir)) [WithCodeBlobUnknown])))
  else
    (fs.removeAll dir, .ok ())

/-- `Local.ListTags`: read `B/name/tags`; a missing directory is wrapped
into a typed error with status 404 (the OCI code field is left at
`UNKNOWN`); other read errors pass through untyped. -/
def ListTags (name : String) (fs : FS) : Except HErr (List String) :=
  let path := PathJoinWithBase name [baseTagDir]
  match fs.readDir path with
  | .ok entries => .ok entries
  | .error e =>
    match e with
    | .pathNotExist p =>
      .error (.typed (Wrap (some (.pathNotExist p)) [WithStatusCode 404]))
    | other => .error (.go other)

/-! ## ASCII string/byte conversions -/

theorem char_ofNat_toNat (c : Char) (h : c.toNat < 0xd800) :
    Char.ofNat c.toNat = c := by
  unfold Char.ofNat
  rw [dif_pos (Or.inl (by exact_mod_cast h : c.toNat < 0xd800))]
  apply Char.ext
  rfl

theorem char_toNat_ofNat (n : Nat) (h : n < 0xd800) :
    (Char.ofNat n).toNat = n := by
  unfold Char.ofNat
  rw [dif_pos (Or.inl (by exact_mod_cast h : n < 0xd800))]
  rfl

/-- Reading file bytes back as a Go string (ASCII contents). -/
def stringOfBytes (bs : List Nat) : String :=
  (bs.map Char.ofNat).asString

/-- An ASCII string (all code points below 128), for which the byte/string
conversions invert each other. -/
def AsciiStr (s : String) : Prop := ∀ c ∈ s.data, c.toNat < 128

instance (s : String) : Decidable (AsciiStr s) := by
  unfold AsciiStr; infer_instance

theorem stringOfBytes_bytesOfString (s : String) (h : AsciiStr s) :
    stringOfBytes (bytesOfString s) = s := by
  unfold stringOfBytes bytesOfString
  rw [List.map_map]
  have : s.data.map (Char.ofNat ∘ Char.toNat) = s.data := by
    conv_rhs => rw [← List.map_id s.data]
    apply List.map_congr_left
    intro c hc
    exact char_ofNat_toNat c (lt_trans (h c hc) (by norm_num))
  rw [this]
  rfl

/-! ## Manifest JSON (`encoding/json` on `registry.Manifest`)

`registry.Manifest` is not under the extracted sources; per the spec (§3)
and the `main.Manifest` mirror it has fields `schemaVersion`, `mediaType`,
`config` and `layers`, with descriptors `mediaType`/`size`/`digest`.

The codec models `encoding/json` on the canonical compact form it produces
for this struct: `encodeManifest` is exactly the `json.Encoder` output
(field order as declared, no spaces), and `parseManifest` accepts that
canonical form (strings restricted to printable ASCII without `"`, `\`,
`<`, `>`, `&`, which Go would escape on encode).  The decoder is a strict
subset of `json.Decode`: both agree wherever the decoder succeeds, which is
the only situation the theorems rely on. -/

structure Descriptor where
  mediaType : String
  size : Nat
  digest : String
deriving DecidableEq

structure Manifest where
  schemaVersion : Nat
  mediaType : String
  config : Descriptor
  layers : List Descriptor
deriving DecidableEq

/-- Decimal digits of `n` (fuel-based so the kernel evaluates it). -/
def natCharsGo : Nat → Nat → List Char
  | 0, n => [Char.ofNat (48 + n % 10)]
  | fuel + 1, n =>
    if n < 10 then [Char.ofNat (48 + n)]
    else natCharsGo fuel (n / 10) ++ [Char.ofNat (48 + n % 10)]

def natChars (n : Nat) : List Char := natCharsGo n n

/-- A character Go's encoder emits verbatim inside a JSON string and our
parser accepts: printable ASCII other than `"`, `\` and the
HTML-escaped `<`, `>`, `&`. -/
def plainChar (c : Char) : Bool :=
  0x20 ≤ c.toNat && c.toNat < 0x7f && c ≠ '\x22' && c ≠ '\\' &&
    c ≠ '<' && c ≠ '>' && c ≠ '&'

def PlainStr (s : String) : Prop := ∀ c ∈ s.data, plainChar c

instance (s : String) : Decidable (PlainStr s) := by
  unfold PlainStr; infer_instance

def PlainDesc (d : Descriptor) : Prop :=
  PlainStr d.mediaType ∧ PlainStr d.digest

instance (d : Descriptor) : Decidable (PlainDesc d) := by
  unfold PlainDesc; infer_instance

def PlainManifest (m : Manifest) : Prop :=
  PlainStr m.mediaType ∧ PlainDesc m.config ∧ ∀ d ∈ m.layers, PlainDesc d

instance (m : Manifest) : Decidable (PlainManifest m) := by
  unfold PlainManifest; infer_instance

def quoteChar : Char := '\x22'

def encodeDesc (d : Descriptor) : List Char :=
  "\x7b\x22mediaType\x22:\x22".data ++ d.mediaType.data ++ [quoteChar] ++
    ",\x22size\x22:".data ++ natChars d.size ++
    ",\x22digest\x22:\x22".data ++ d.digest.data ++ [quoteChar] ++
    "\x7d".data

def encodeDescsTail : List Descriptor → List Char
  | [] => []
  | [d] => encodeDesc d ++ [']']
  | d :: rest => encodeDesc d ++ [','] ++ encodeDescsTail rest

def encodeLayers (ds : List Descriptor) : List Char :=
  match ds with
  | [] => "[]".data
  | _ => ['['] ++ encodeDescsTail ds

/-- The compact `json.Marshal` form of a manifest (without the trailing
newline `json.Encoder.Encode` adds). -/
def encodeManifest (m : Manifest) : List Char :=
  "\x7b\x22schemaVersion\x22:".data ++ natChars m.schemaVersion ++
    ",\x22mediaType\x22:\x22".data ++ m.mediaType.data ++ [quoteChar] ++
    ",\x22config\x22:".data ++ encodeDesc m.config ++
    ",\x22layers\x22:".data ++ encodeLayers m.layers ++ "\x7d".data

/-- `json.Encoder.Encode` output as file bytes: the value plus `\n`. -/
def encodeManifestBytes (m : Manifest) : List Nat :=
  (encodeManifest m).map Char.toNat ++ [10]

def expectLit : List Char → List Char → Option (List Char)
  | [], input => some input
  | _ :: _, [] => none
  | l :: ls, c :: cs => if c = l then expectLit ls cs else none

def parseStrBody : List Char → Option (List Char × List Char)
  | [] => none
  | c :: cs =>
    if c = '\x22' then some ([], cs)
    else if plainChar c then
      match parseStrBody cs with
      | some (s, r) => some (c :: s, r)
      | none => none
    else none

def digitVal (c : Char) : Nat := c.toNat - 48

def parseNat (cs : List Char) : Option (Nat × List Char) :=
  match cs.span Char.isDigit with
  | ([], _) => none
  | (ds, rest) => some (ds.foldl (fun a c => 10 * a + digitVal c) 0, rest)

def parseDesc (cs : List Char) : Option (Descriptor × List Char) :=
  match expectLit "\x7b\x22mediaType\x22:\x22".data cs with
  | none => none
  | some cs1 =>
    match parseStrBody cs1 with
    | none => none
    | some (mt, cs2) =>
      match expectLit ",\x22size\x22:".data cs2 with
      | none => none
      | some cs3 =>
        match parseNat cs3 with
        | none => none
        | some (sz, cs4) =>
          match expectLit ",\x22digest\x22:\x22".data cs4 with
          | none => none
          | some cs5 =>
            match parseStrBody cs5 with
            | none => none
            | some (dg, cs6) =>
              match expectLit "\x7d".data cs6 with
              | none => none
              | some cs7 => some (⟨mt.asString, sz, dg.asString⟩, cs7)

def parseDescs : Nat → List Char → Option (List Descriptor × List Char)
  | 0, _ => none
  | fuel + 1, cs =>
    match parseDesc cs with
    | none => none
    | some (d, cs1) =>
      if cs1.head? = some ',' then
        match parseDescs fuel cs1.tail with
        | none => none
        | some (ds, cs3) => some (d :: ds, cs3)
      else if cs1.head? = some ']' then some ([d], cs1.tail)
      else none

def parseLayers (cs : List Char) : Option (List Descriptor × List Char) :=
  match expectLit "[]".data cs with
  | some rest => some ([], rest)
  | none =>
    if cs.head? = some '[' then parseDescs cs.tail.length cs.tail
    else none

def parseManifest (cs : List Char) : Option (Manifest × List Char) :=
  match expectLit "\x7b\x22schemaVersion\x22:".data cs with
  | none => none
  | some cs1 =>
    match parseNat cs1 with
    | none => none
    | some (sv, cs2) =>
      match expectLit ",\x22mediaType\x22:\x22".data cs2 with
      | none => none
      | some cs3 =>
        match parseStrBody cs3 with
        | none => none
        | some (mt, cs4) =>
          match expectLit ",\x22config\x22:".data cs4 with
          | none => none
          | some cs5 =>
            match parseDesc cs5 with
            | none => none
            | some (cfg, cs6) =>
              match expectLit ",\x22layers\x22:".data cs6 with
              | none => none
              | some cs7 =>
                match parseLayers cs7 with
                | none => none
                | some (ls, cs8) =>
                  match expectLit "\x7d".data cs8 with
                  | none => none
                  | some cs9 => some (⟨sv, mt.asString, cfg, ls⟩, cs9)

/-- `json.Decoder.Decode` on a manifest body (trailing bytes beyond the
value are left unread, as in Go). -/
def decodeManifest (bs : List Nat) : Option Manifest :=
  match parseManifest (bs.map Char.ofNat) with
  | some (m, _) => some m
  | none => none

/-! ## Manifest storage operations -/

/-- `filepath.Join` of an already-clean path and one further element. -/
def joinRel (p : Path) (s : String) : Path :=
  cleanParts (p ++ splitPath s)

/-- `Local.CreateManifest`: hash the body while decoding it (the digest is
the SHA-256 of the bytes the decoder consumed, i.e. the body), write the
tag file `B/name/tags/tag` holding `sha256:<hex>`, then write the re-encoded
manifest to `B/name/<sha256:...>/manifest.json`.  Returns the manifest and
the digest string (which the handler puts in `Docker-Content-Digest`). -/
def CreateManifest (body : List Nat) (name tag : String) (fs : FS) :
    FS × Except HErr (Manifest × String) :=
  match decodeManifest body with
  | none =>
    (fs, .error (.typed (Wrap (some (.misc "json decode")) [WithCodeManifestInvalid])))
  | some m =>
    let sha256sum := sha256sumStr body
    let path := PathJoinWithBase name [baseTagDir]
    let fs1 := fs.mkdirAll path
    let fs2 := fs1.createFile (joinRel path tag) (bytesOfString sha256sum)
    let manifestPath := PathJoinWithBase name [sha256sum]
    let fs3 := fs2.mkdirAll manifestPath
    let fs4 := fs3.createFile (joinRel manifestPath "manifest.json")
      (encodeManifestBytes m)
    (fs4, .ok (m, sha256sum))

/-- `Local.FindManifestByImage`: if `B/name/tags/ref` stats, read it and use
its contents as the digest; then open `B/name/<ref>/manifest.json` (typed
`MANIFEST_UNKNOWN` when `ENOENT`) and decode it. -/
def FindManifestByImage (name ref : String) (fs : FS) : Except HErr Manifest :=
  let tagFilePath := PathJoinWithBase name [baseTagDir, ref]
  let ref2 : Except HErr String :=
    match fs.statE tagFilePath with
    | none =>
      match fs.lookupFile tagFilePath with
      | some c => .ok (stringOfBytes c)
      | none => .error (.typed (Wrap (some (.misc "read tag file")) []))
    | some _ => .ok ref
  match ref2 with
  | .error e => .error e
  | .ok r =>
    let manifest := PathJoinWithBase name [r, "manifest.json"]
    if fs.statE manifest = some .notExist then
      .error (.typed (Wrap (some (.pathNotExist manifest)) [WithCodeManifestUnknown]))
    else
      match fs.lookupFile manifest with
      | none => .error (.go (.misc "open failed"))
      | some c =>
        match decodeManifest c with
        | some m => .ok m
        | none => .error (.go (.misc "decode failed"))

/-! ## Digest parsing (`github.com/opencontainers/go-digest`)

`digest.Parse` validates `algorithm:hex`; for `sha256` the hex part must be
exactly 64 lowercase hexadecimal characters.  The server only ever meets
`sha256` digests, so the model rejects other algorithms (for which go-digest
would also fail or which do not occur). -/

def isHexLower (c : Char) : Bool :=
  ('0' ≤ c && c ≤ '9') || ('a' ≤ c && c ≤ 'f')

def digestParse (s : String) : Option String :=
  let cs := s.data
  if cs.take 7 = "sha256:".data ∧ (cs.drop 7).length = 64 ∧
      ∀ c ∈ cs.drop 7, isHexLower c then
    some s
  else none

/-- `digest.Digest.Hex`: the part after the colon. -/
def digestHex (s : String) : String := (s.data.drop 7).asString

/-! ## HTTP handlers (`main.go`) -/

/-- A handler response carrying no written status or headers yet. -/
def emptyOut : HandlerOut :=
  { status := none, contentType := none, headers := [], body := [],
    err := none }

/-- Return a handler error (nothing written; the adapter will render it). -/
def errOut (e : HErr) : HandlerOut := { emptyOut with err := some e }

/-- `strconv.ParseInt` base 10 on the nonnegative decimal strings the
handlers meet. -/
def parseIntString (s : String) : Option Int :=
  match s.data with
  | [] => none
  | cs => if ∀ c ∈ cs, c.isDigit then
      some (cs.foldl (fun a c => 10 * a + (digitVal c : Int)) 0)
    else none

/-- `strings.Index s "bytes "`: first index of the substring, if any. -/
def findBytesIdx (cs : List Char) : Option Nat :=
  go cs 0
where
  go : List Char → Nat → Option Nat
    | [], _ => none
    | c :: rest, i =>
      if "bytes ".data <+: (c :: rest) then some i else go rest (i + 1)

/-- The `Content-Range` preprocessing in `PushBlobPatch`: when `"bytes "`
occurs at index `idx`, the source keeps `contentRange[idx+1:]` (dropping
only one character, not the whole prefix). -/
def stripBytesPrefix (s : String) : String :=
  match findBytesIdx s.data with
  | some i => (s.data.drop (i + 1)).asString
  | none => s

def skipSpaces : List Char → List Char
  | ' ' :: cs => skipSpaces cs
  | cs => cs

/-- `fmt.Sscanf contentRange "%d-%d"` on the nonnegative inputs the
protocol uses. -/
def sscanfRange (s : String) : Option (Int × Int) :=
  match (skipSpaces s.data).span Char.isDigit with
  | ([], _) => none
  | (ds1, rest1) =>
    match rest1 with
    | '-' :: rest2 =>
      match (skipSpaces rest2).span Char.isDigit with
      | ([], _) => none
      | (ds2, _) =>
        some ((ds1.foldl (fun a c => 10 * a + (digitVal c : Int)) 0),
          (ds2.foldl (fun a c => 10 * a + (digitVal c : Int)) 0))
    | _ => none

/-- `main.PushBlobPost`.  `sessionID` stands for the UUID `IssueSession`
would draw. -/
def PushBlobPost (isArch : List Nat → Bool)
    (name contentType digestQ sessionID : String) (body : List Nat)
    (fs : FS) : FS × HandlerOut :=
  if contentType ≠ "application/octet-stream" then
    (fs, { emptyOut with
             status := some 202,
             headers := [("Location", "/v2/" ++ name ++ "/blobs/uploads/" ++
               sessionID)] })
  else
    match digestParse digestQ with
    | none =>
      (fs, errOut (.typed (Wrap (some (.misc "parse digest"))
        [WithCodeDigestInvalid])))
    | some d =>
      let (fs1, _) := PutBlobByReference isArch d name body fs
      (fs1, { emptyOut with
              status := some 201,
              headers := [("Location", "/v2/" ++ name ++ "/blobs/" ++ d)] })

/-- `registry.PredictDockerContentType`.  Modelled from the spec: the
function itself is not among the extracted sources; §4.3 defines it as the
manifest media type for `.json`/`manifest.json` names and the layer media
type otherwise. -/
def PredictDockerContentType (filename : String) : String :=
  if ".json".data.isSuffixOf filename.data then
    "application/vnd.docker.distribution.manifest.v2+json"
  else
    "application/vnd.docker.image.rootfs.diff.tar.gzip"

/-- `main.PullingBlobs`. -/
def PullingBlobs (name digestParam : String) (fs : FS) : FS × HandlerOut :=
  match digestParse digestParam with
  | none =>
    (fs, errOut (.typed (Wrap (some (.misc "parse digest"))
      [WithCodeDigestInvalid])))
  | some d =>
    match FindBlobByImage name d fs with
    | .error e => (fs, errOut e)
    | .ok (fname, c) =>
      (fs, { emptyOut with
             contentType := some (PredictDockerContentType fname),
             body := c })

/-- `main.PushBlobPatch`, translated branch by branch (including the early
`return err` that follows the `CheckBlobByReference` call whenever
`os.IsNotExist (errors.Unwrap err)` is false — which is always, since the
typed error has no `Unwrap` method and a nil error unwraps to nil). -/
def PushBlobPatch (isArch : List Nat → Bool)
    (name sessionID contentRange contentLength : String) (body : List Nat)
    (fs : FS) : FS × HandlerOut :=
  if contentRange = "" ∨ contentLength = "" then
    let (fs1, size) := PutBlobByReference isArch sessionID name body fs
    (fs1, { emptyOut with
            status := some 202,
            headers := [("Location", "/v2/" ++ name ++ "/blobs/uploads/" ++
                sessionID),
              ("Docker-Upload-UUID", sessionID),
              ("Range", "0-" ++ toString size)] })
  else
    match parseIntString contentLength with
    | none =>
      (fs, errOut (.typed (Wrap (some (.misc "parse content-length"))
        [WithCodeBlobUnknown, WithStatusCode 400])))
    | some bodyLen =>
      match sscanfRange (stripBytesPrefix contentRange) with
      | none =>
        (fs, errOut (.typed (Wrap (some (.misc "scan content-range"))
          [WithCodeBlobUploadUnknown])))
      | some (start, endPos) =>
        let check := CheckBlobByReference name sessionID fs
        let fsize : Int := match check with
          | .ok info => (info.size : Int)
          | .error _ => 0
        let errOpt : Option HErr := match check with
          | .ok _ => none
          | .error e => some e
        if ¬ osIsNotExist (errorsUnwrap errOpt) then
          (fs, { emptyOut with err := errOpt })
        else if start ≠ fsize ∨ endPos - start + 1 ≠ bodyLen then
          (fs, errOut (.typed (Wrap (errOpt.map fun _ => .misc "check")
            [WithCodeBlobUploadUnknown])))
        else if start = 0 then
          let (fs1, size) := PutBlobByReference isArch sessionID name body fs
          (fs1, { emptyOut with
                  status := some 202,
                  headers := [("Accept-Ranges", "bytes"),
                    ("Range", "0-" ++ toString size),
                    ("Location", "/v2/" ++ name ++ "/blobs/uploads/" ++
                      sessionID),
                    ("Docker-Upload-UUID", sessionID)] })
        else
          let path := PathJoinWithBase name [sessionID]
          if fs.dirExists path then
            (fs, errOut (.go (.misc "copy to read-only directory handle")))
          else
            (fs, errOut (.go (.pathNotExist path)))

/-- `main.PushBlobPut`. -/
def PushBlobPut (isArch : List Nat → Bool)
    (name sessionID contentType digestQ : String) (body : List Nat)
    (fs : FS) : FS × HandlerOut :=
  match digestParse digestQ with
  | none =>
    (fs, errOut (.typed (Wrap (some (.misc "parse digest"))
      [WithCodeDigestInvalid])))
  | some d =>
    if contentType = "application/octet-stream" then
      let (fs1, _) := PutBlobByReference isArch d name body fs
      (fs1, { emptyOut with
              status := some 201,
              headers := [("Location", "/v2/" ++ name ++ "/blobs/" ++ d)] })
    else
      match EnsurePutBlobBySession sessionID name d fs with
      | (fs1, .error e) => (fs1, errOut e)
      | (fs1, .ok _) => (fs1, { emptyOut with status := some 201 })

/-- `main.PushManifestPut`. -/
def PushManifestPut (name tag : String) (body : List Nat) (fs : FS) :
    FS × HandlerOut :=
  match CreateManifest body name tag fs with
  | (fs1, .error e) => (fs1, errOut e)
  | (fs1, .ok (_, sha256sum)) =>
    (fs1, { emptyOut with
            status := some 201,
            headers := [("Docker-Content-Digest", sha256sum),
              ("Location", "/v2/" ++ name ++ "/manifests/" ++ tag)] })

/-- `main.PullingManifests`. -/
def PullingManifests (name ref : String) (fs : FS) : FS × HandlerOut :=
  match FindManifestByImage name ref fs with
  | .error e => (fs, errOut e)
  | .ok m =>
    (fs, { emptyOut with
           contentType := some (PredictDockerContentType "manifest.json"),
           body := encodeManifestBytes m })

/-- `main.DeleteManifest`. -/
def DeleteManifest (name tag : String) (fs : FS) : FS × HandlerOut :=
  match DeleteManifestByImage name tag fs with
  | (fs1, .error e) => (fs1, errOut e)
  | (fs1, .ok _) => (fs1, { emptyOut with status := some 202 })

/-- `main.DeleteBlob`. -/
def DeleteBlob (name digestParam : String) (fs : FS) : FS × HandlerOut :=
  match DeleteBlobByImage name digestParam fs with
  | (fs1, .error e) => (fs1, errOut e)
  | (fs1, .ok _) => (fs1, { emptyOut with status := some 202 })

/-- JSON body of the tag listing `{"name": N, "tags": [...]}` (plain ASCII
names, no escaping), plus the encoder's newline. -/
def tagsJSONBody (name : String) (tags : List String) : List Nat :=
  bytesOfString ("\x7b\x22name\x22:\x22" ++ name ++ "\x22,\x22tags\x22:[" ++
    String.intercalate "," (tags.map (fun t => "\x22" ++ t ++ "\x22")) ++
    "]\x7d") ++ [10]

/-- `main.ListTags` (the handler). -/
def ListTagsHandler (name : String) (fs : FS) : FS × HandlerOut :=
  match ListTags name fs with
  | .error e => (fs, errOut e)
  | .ok tags => (fs, { emptyOut with body := tagsJSONBody name tags })

/-- The OCI code of a typed error a handler returned, if any. -/
def errCodeOfOut (out : HandlerOut) : Option String :=
  match out.err with
  | some (.typed e) => some e.code
  | _ => none

/-- A small sample repository state: repository `lib` with tag files
`latest` and `other`. -/
def sampleTagsFS : FS :=
  (FS.empty.createFile ["testdata", "lib", "tags", "latest"]
    (bytesOfString "sha256:aa")).createFile
    ["testdata", "lib", "tags", "other"] (bytesOfString "sha256:bb")

/-! # Theorems -/

/-! Cleaning facts: on plain components, `cleanParts` is the identity. -/

theorem splitChars_no_slash (cur : List Char) (cs : List Char)
    (h : ∀ c ∈ cs, c ≠ '/') : splitChars cur cs = [(cur.reverse ++ cs)] := by
  induction cs generalizing cur with
  | nil => simp [splitChars]
  | cons c cs ih =>
    have hc : c ≠ '/' := h c (List.mem_cons_self ..)
    simp only [splitChars, if_neg hc]
    rw [ih (c :: cur) (fun x hx => h x (List.mem_cons_of_mem _ hx))]
    simp

theorem splitPath_pcomp (s : String) (h : PComp s) : splitPath s = [s] := by
  unfold splitPath
  rw [splitChars_no_slash [] s.data (fun c hc => by
    intro hceq; exact h.2.2.2 (hceq ▸ hc))]
  simp [List.asString]

theorem cleanStep_plain (stack : List String) (c : String) (h : PComp c) :
    cleanStep stack c = c :: stack := by
  unfold cleanStep
  rw [if_neg, if_neg h.2.2.1]
  push_neg
  exact ⟨h.1, h.2.1⟩

theorem foldl_cleanStep_plain (cs : List String) (stack : List String)
    (h : ∀ c ∈ cs, PComp c) :
    cs.foldl cleanStep stack = cs.reverse ++ stack := by
  induction cs generalizing stack with
  | nil => simp
  | cons c cs ih =>
    simp only [List.foldl_cons, List.reverse_cons, List.append_assoc]
    rw [cleanStep_plain stack c (h c (List.mem_cons_self ..)),
      ih _ (fun x hx => h x (List.mem_cons_of_mem _ hx))]
    simp

theorem cleanParts_plain (cs : List String) (h : ∀ c ∈ cs, PComp c) :
    cleanParts cs = cs := by
  unfold cleanParts
  rw [foldl_cleanStep_plain cs [] h]
  simp

theorem basePath_split : splitPath BasePath = ["testdata"] := by decide

/-- With a well-formed name and plain parts, the joined path is literally
`testdata / name-components / parts`. -/
theorem pathJoinWithBase_plain (name : String) (p : List String)
    (hn : GoodName name) (hp : ∀ c ∈ p, PComp c) :
    PathJoinWithBase name p = "testdata" :: splitPath name ++ p := by
  unfold PathJoinWithBase
  rw [basePath_split]
  have hflat : p.flatMap splitPath = p := by
    induction p with
    | nil => simp
    | cons c cs ih =>
      rw [List.flatMap_cons, splitPath_pcomp c (hp c (List.mem_cons_self ..)),
        ih (fun x hx => hp x (List.mem_cons_of_mem _ hx))]
      simp
  rw [hflat]
  rw [cleanParts_plain]
  · simp
  · intro c hc
    simp only [List.mem_append, List.mem_cons, List.not_mem_nil, or_false] at hc
    rcases hc with (h | h) | h
    · subst h; decide
    · exact hn.2 c h
    · exact hp c h

/-! ## Filesystem lemmas -/

namespace FS

theorem assocLookup_filter_ne (l : List (Path × List Nat)) (p q : Path)
    (h : q ≠ p) :
    assocLookup (l.filter (fun e => e.1 ≠ p)) q = assocLookup l q := by
  induction l with
  | nil => rfl
  | cons e t ih =>
    obtain ⟨e1, e2⟩ := e
    by_cases he : e1 = p
    · subst he
      rw [List.filter_cons_of_neg (by simp)]
      rw [ih]
      simp only [assocLookup]
      rw [if_neg (fun hh : e1 = q => h (hh ▸ rfl))]
    · rw [List.filter_cons_of_pos (by simpa using he)]
      simp only [assocLookup]
      by_cases hq : e1 = q
      · simp [hq]
      · rw [if_neg hq, if_neg hq, ih]

theorem lookupFile_createFile_self (fs : FS) (p : Path) (c : List Nat) :
    (fs.createFile p c).lookupFile p = some c := by
  unfold createFile lookupFile
  simp [assocLookup]

theorem lookupFile_createFile_ne (fs : FS) (p q : Path) (c : List Nat)
    (h : q ≠ p) : (fs.createFile p c).lookupFile q = fs.lookupFile q := by
  unfold createFile lookupFile
  simp only [assocLookup]
  rw [if_neg (fun hh : p = q => h hh.symm)]
  exact assocLookup_filter_ne fs.files p q h

theorem lookupFile_mkdirAll (fs : FS) (d q : Path) :
    (fs.mkdirAll d).lookupFile q = fs.lookupFile q := rfl

theorem lookupFile_deleteFile (fs : FS) (p q : Path) (h : q ≠ p) :
    (fs.deleteFile p).lookupFile q = fs.lookupFile q := by
  unfold deleteFile lookupFile
  exact assocLookup_filter_ne fs.files p q h

theorem assocLookup_eq_none_of_all (l : List (Path × List Nat)) (q : Path)
    (h : ∀ e ∈ l, e.1 ≠ q) : assocLookup l q = none := by
  induction l with
  | nil => rfl
  | cons e t ih =>
    obtain ⟨e1, e2⟩ := e
    simp only [assocLookup]
    rw [if_neg (h (e1, e2) (List.mem_cons_self ..)), ih]
    intro x hx
    exact h x (List.mem_cons_of_mem _ hx)

theorem lookupFile_deleteFile_self (fs : FS) (p : Path) :
    (fs.deleteFile p).lookupFile p = none := by
  unfold deleteFile lookupFile
  apply assocLookup_eq_none_of_all
  intro e he
  have := List.of_mem_filter he
  simpa using this

theorem assocLookup_filter_not_prefix (l : List (Path × List Nat))
    (p q : Path) (h : ¬ p <+: q) :
    assocLookup (l.filter (fun e => ¬ p <+: e.1)) q = assocLookup l q := by
  induction l with
  | nil => rfl
  | cons e t ih =>
    obtain ⟨e1, e2⟩ := e
    by_cases hp : p <+: e1
    · rw [List.filter_cons_of_neg (by simpa using hp)]
      rw [ih]
      simp only [assocLookup]
      rw [if_neg (fun hh : e1 = q => h (hh ▸ hp))]
    · rw [List.filter_cons_of_pos (by simpa using hp)]
      simp only [assocLookup]
      by_cases hq : e1 = q
      · simp [hq]
      · rw [if_neg hq, if_neg hq, ih]

theorem lookupFile_removeAll_of_not_prefix (fs : FS) (p q : Path)
    (h : ¬ p <+: q) : (fs.removeAll p).lookupFile q = fs.lookupFile q := by
  unfold removeAll lookupFile
  exact assocLookup_filter_not_prefix fs.files p q h

theorem lookupFile_removeAll_of_prefix (fs : FS) (p q : Path)
    (h : p <+: q) : (fs.removeAll p).lookupFile q = none := by
  unfold removeAll lookupFile
  apply assocLookup_eq_none_of_all
  intro e he
  have := List.of_mem_filter he
  intro hq
  rw [decide_eq_true_iff] at this
  exact this (hq ▸ h)

theorem dirExists_mkdirAll_self (fs : FS) (p : Path) :
    (fs.mkdirAll p).dirExists p = true := by
  unfold mkdirAll dirExists
  simp

theorem dirExists_mkdirAll (fs : FS) (d q : Path) :
    (fs.mkdirAll d).dirExists q =
      ((q = d || strictPrefix q d) || fs.dirExists q) := by
  unfold mkdirAll dirExists
  simp [List.any_cons, Bool.or_assoc]

theorem dirExists_createFile (fs : FS) (p q : Path) (c : List Nat) :
    (fs.createFile p c).dirExists q = (strictPrefix q p || fs.dirExists q) := by
  unfold createFile dirExists
  rw [Bool.eq_iff_iff]
  simp only [List.any_cons, Bool.or_eq_true, List.any_eq_true]
  constructor
  · rintro (hd | (hnew | ⟨e, he, hpe⟩))
    · right; left; exact hd
    · left; exact hnew
    · by_cases hep : e.1 = p
      · left; exact hep ▸ hpe
      · right; right; exact ⟨e, List.mem_of_mem_filter he, hpe⟩
  · rintro (hnew | (hd | ⟨e, he, hpe⟩))
    · right; left; exact hnew
    · left; exact hd
    · by_cases hep : e.1 = p
      · right; left; exact hep ▸ hpe
      · right; right
        exact ⟨e, List.mem_filter_of_mem he (by simpa using hep), hpe⟩

end FS

/-! ## Claim C9 -/

theorem flatMap_splitPath_plain (p : List String) (hp : ∀ c ∈ p, PComp c) :
    p.flatMap splitPath = p := by
  induction p with
  | nil => simp
  | cons c cs ih =>
    rw [List.flatMap_cons, splitPath_pcomp c (hp c (List.mem_cons_self ..)),
      ih (fun x hx => hp x (List.mem_cons_of_mem _ hx))]
    simp

theorem pathJoinWithBase_dotdot (parts : List String)
    (hp : ∀ c ∈ parts, PComp c) :
    PathJoinWithBase ".." parts = parts := by
  unfold PathJoinWithBase
  rw [basePath_split, flatMap_splitPath_plain parts hp]
  have h1 : splitPath ".." = [".."] := by decide
  rw [h1]
  unfold cleanParts
  show ((["testdata"] ++ [".."] ++ parts).foldl cleanStep []).reverse = parts
  have h2 : (["testdata"] ++ [".."] ++ parts).foldl cleanStep [] =
      parts.foldl cleanStep [] := rfl
  rw [h2, foldl_cleanStep_plain parts [] hp]
  simp

/-- C9: `PathJoinWithBase` performs no sanitization of the repository name:
for the name `".."` the cleaned path drops out of the base directory
entirely (the join equals the bare parts), so it never takes the form
`testdata/...`, and a storage operation such as `DeleteBlobByImage` invoked
with that name removes a path outside the registry root. -/
theorem C9_pathJoinWithBase_escapes_base (parts : List String)
    (hp : ∀ c ∈ parts, PComp c) :
    PathJoinWithBase ".." parts = parts ∧
    (parts.head? ≠ some "testdata" →
      ¬ ∃ rest, PathJoinWithBase ".." parts = "testdata" :: rest) ∧
    (∀ (fs : FS) (d : String), PComp d → fs.statE [d] ≠ some .notExist →
      (DeleteBlobByImage ".." d fs).1 = fs.removeAll [d]) := by
  refine ⟨pathJoinWithBase_dotdot parts hp, ?_, ?_⟩
  · intro hhead ⟨rest, hr⟩
    rw [pathJoinWithBase_dotdot parts hp] at hr
    apply hhead
    rw [hr]
    rfl
  · intro fs d hd hstat
    unfold DeleteBlobByImage
    rw [pathJoinWithBase_dotdot [d] (by simpa using hd)]
    rw [if_neg hstat]

/-- Witness for C9 at the concrete name `".."`, part `"etc"` and a state
holding a file at the root-level path `etc`. -/
theorem C9_pathJoinWithBase_escapes_base_witness :
    PathJoinWithBase ".." ["etc"] = ["etc"] ∧
    (DeleteBlobByImage ".." "etc" (FS.empty.createFile ["etc"] [1])).1 =
      (FS.empty.createFile ["etc"] [1]).removeAll ["etc"] := by
  have h := C9_pathJoinWithBase_escapes_base ["etc"] (by decide)
  exact ⟨h.1, h.2.2 (FS.empty.createFile ["etc"] [1]) "etc" (by decide)
    (by decide)⟩

/-! ## Claim C10 -/

/-- C10: `PickupFileinfo` on a directory listing two or more entries
returns the first entry of the (sorted) listing with no error; it errors
only when the directory is missing or empty. -/
theorem C10_pickupFileinfo_first_of_many (fs : FS) (dir : Path)
    (e1 e2 : String) (rest : List String)
    (hdir : fs.dirExists dir = true)
    (h : fs.childNames dir = e1 :: e2 :: rest) :
    PickupFileinfo fs dir = .ok ⟨e1, fs.entrySize (dir ++ [e1])⟩ ∧
    ∀ (fs2 : FS) (d2 : Path) (err : FS.GoErr),
      PickupFileinfo fs2 d2 = .error err →
      fs2.dirExists d2 = false ∨ fs2.childNames d2 = [] := by
  constructor
  · unfold PickupFileinfo FS.readDir
    rw [if_pos hdir, h]
  · intro fs2 d2 err herr
    by_cases hd : fs2.dirExists d2 = true
    · right
      unfold PickupFileinfo FS.readDir at herr
      rw [if_pos hd] at herr
      cases hcn : fs2.childNames d2 with
      | nil => rfl
      | cons x xs => rw [hcn] at herr; exact absurd herr (by simp)
    · left
      exact Bool.not_eq_true _ ▸ (by simpa using hd)

/-- Witness for C10: a directory with two files; the first sorted entry is
returned. -/
theorem C10_pickupFileinfo_first_of_many_witness :
    PickupFileinfo ((FS.empty.createFile ["d", "b"] [1, 2]).createFile
        ["d", "a"] [3]) ["d"] = .ok ⟨"a", 1⟩ := by
  have h := C10_pickupFileinfo_first_of_many
    ((FS.empty.createFile ["d", "b"] [1, 2]).createFile ["d", "a"] [3])
    ["d"] "a" "b" [] (by decide) (by decide)
  exact h.1

/-! ## Claim C8 -/

/-- C8: `Wrap` initializes the error to `UNKNOWN`/500 and applies the
modifiers left to right, so a later modifier overrides an earlier one;
`ServeJSON` sets the JSON content type, writes the (typed) error's status
code — an untyped error surfacing as `UNKNOWN`/500 — and emits the
code/message envelope with the detail field only when present. -/
theorem C8_wrap_and_serveJSON :
    (∀ e : Option FS.GoErr, Wrap e [] =
      ⟨e, 500, "UNKNOWN", "unknown error", none⟩) ∧
    (∀ (e : Option FS.GoErr) (opts1 opts2 : List WrapOption),
      Wrap e (opts1 ++ opts2) =
        opts2.foldl (fun a o => o a) (Wrap e opts1)) ∧
    (∀ (e : Option FS.GoErr) (opts : List WrapOption) (sc : Nat),
      (Wrap e (opts ++ [WithStatusCode sc])).statusCode = sc) ∧
    (∀ (e : Option FS.GoErr) (opts : List WrapOption) (d : String),
      (Wrap e (opts ++ [WithDetail d])).detail = some d) ∧
    (∀ t : RegError, ServeJSON (.typed t) =
      ⟨t.statusCode, some "application/json; charset=utf-8", [],
        bytesOfString (errorEnvelope t) ++ [10]⟩) ∧
    (∀ g : FS.GoErr, ServeJSON (.go g) =
      ⟨500, some "application/json; charset=utf-8", [],
        bytesOfString ("\x7b\x22code\x22:\x22UNKNOWN\x22," ++
          "\x22message\x22:\x22unknown error\x22\x7d") ++ [10]⟩) ∧
    (∀ t : RegError, t.detail = none → errorEnvelope t =
      "\x7b\x22code\x22:\x22" ++ t.code ++ "\x22,\x22message\x22:\x22" ++
        t.message ++ "\x22\x7d") ∧
    (∀ (t : RegError) (d : String), t.detail = some d → errorEnvelope t =
      "\x7b\x22code\x22:\x22" ++ t.code ++ "\x22,\x22message\x22:\x22" ++
        t.message ++ "\x22,\x22detail\x22:\x22" ++ d ++ "\x22\x7d") := by
  refine ⟨fun e => rfl, ?_, ?_, ?_, fun t => rfl, fun g => rfl, ?_, ?_⟩
  · intro e opts1 opts2
    unfold Wrap
    rw [List.foldl_append]
  · intro e opts sc
    unfold Wrap
    rw [List.foldl_append]
    rfl
  · intro e opts d
    unfold Wrap
    rw [List.foldl_append]
    rfl
  · intro t ht
    unfold errorEnvelope
    rw [ht]
    apply String.ext
    simp [String.data_append]
  · intro t d ht
    unfold errorEnvelope
    rw [ht]
    apply String.ext
    simp [String.data_append]

/-- Witness for C8: a later `WithStatusCode` overrides the code-supplied
status, and the envelope of a detail-free error is code/message only. -/
theorem C8_wrap_and_serveJSON_witness :
    (Wrap none ([WithCodeBlobUnknown] ++ [WithStatusCode 412])).statusCode =
      412 ∧
    errorEnvelope (Wrap none []) =
      "\x7b\x22code\x22:\x22" ++ (Wrap none []).code ++
        "\x22,\x22message\x22:\x22" ++ (Wrap none []).message ++
        "\x22\x7d" := by
  exact ⟨C8_wrap_and_serveJSON.2.2.1 none [WithCodeBlobUnknown] 412,
    C8_wrap_and_serveJSON.2.2.2.2.2.2.1 (Wrap none []) rfl⟩

/-! ## Claim C6 -/

/-- The OCI code of a typed error result, if any. -/
def errCodeOf {α : Type} : Except HErr α → Option String
  | .error (.typed e) => some e.code
  | _ => none

/-- The HTTP status of a typed error result, if any. -/
def errStatusOf {α : Type} : Except HErr α → Option Nat
  | .error (.typed e) => some e.statusCode
  | _ => none

/-- C6 counterexample: with no `testdata/lib/tags` directory, `ListTags`
fails with a typed error whose OCI code is `UNKNOWN` (status 404), not
`NAME_UNKNOWN` as the claim states. -/
theorem C6_listTags_counterexample :
    errCodeOf (ListTags "lib" FS.empty) = some "UNKNOWN" ∧
    errCodeOf (ListTags "lib" FS.empty) ≠ some "NAME_UNKNOWN" ∧
    errStatusOf (ListTags "lib" FS.empty) = some 404 := by
  refine ⟨?_, ?_, ?_⟩ <;> decide

/-- C6 (amended): `ListTags` returns the (sorted) entry names under
`B/N/tags` when that directory exists, and fails with a typed error of HTTP
status 404 whose OCI code is left at `UNKNOWN` when the directory is
absent. -/
theorem C6_listTags_amended (name : String) (fs : FS) :
    (fs.dirExists (PathJoinWithBase name [baseTagDir]) = true →
      ListTags name fs =
        .ok (fs.childNames (PathJoinWithBase name [baseTagDir]))) ∧
    (fs.readDir (PathJoinWithBase name [baseTagDir]) =
        .error (.pathNotExist (PathJoinWithBase name [baseTagDir])) →
      ∃ e, ListTags name fs = .error (.typed e) ∧
        e.statusCode = 404 ∧ e.code = "UNKNOWN") := by
  constructor
  · intro hdir
    have hrd : fs.readDir (PathJoinWithBase name [baseTagDir]) =
        .ok (fs.childNames (PathJoinWithBase name [baseTagDir])) := by
      unfold FS.readDir
      rw [if_pos hdir]
    unfold ListTags
    dsimp only
    rw [hrd]
  · intro herr
    unfold ListTags
    dsimp only
    rw [herr]
    exact ⟨_, rfl, rfl, rfl⟩

/-- Witness for C6: a repository with tag files `v1`, `v2` lists both, and
an unknown repository yields the 404/UNKNOWN typed error. -/
theorem C6_listTags_amended_witness :
    ListTags "lib"
      ((FS.empty.createFile ["testdata", "lib", "tags", "v2"] [1]).createFile
        ["testdata", "lib", "tags", "v1"] [2]) = .ok ["v1", "v2"] ∧
    ∃ e, ListTags "nope" FS.empty = .error (.typed e) ∧
      e.statusCode = 404 ∧ e.code = "UNKNOWN" := by
  constructor
  · have h := (C6_listTags_amended "lib"
      ((FS.empty.createFile ["testdata", "lib", "tags", "v2"] [1]).createFile
        ["testdata", "lib", "tags", "v1"] [2])).1 (by decide)
    rw [h]
    decide
  · exact (C6_listTags_amended "nope" FS.empty).2 (by decide)

/-! ## Directory-listing lemmas -/

namespace FS

theorem dedup_const {l : List String} {a : String} (h : ∀ x ∈ l, x = a)
    (hne : l ≠ []) : l.dedup = [a] := by
  induction l with
  | nil => exact absurd rfl hne
  | cons x t ih =>
    have hx : x = a := h x (List.mem_cons_self ..)
    subst hx
    by_cases hm : x ∈ t
    · rw [List.dedup_cons_of_mem hm]
      exact ih (fun y hy => h y (List.mem_cons_of_mem _ hy))
        (List.ne_nil_of_mem hm)
    · have ht : t = [] := by
        cases t with
        | nil => rfl
        | cons y ys =>
          exact absurd ((h y (by simp)) ▸ List.mem_cons_self y ys) hm
      subst ht
      rfl

theorem childNamesRaw_all (fs : FS) (p : Path) (a : String)
    (h : ∀ q, (q ∈ fs.files.map Prod.fst ∨ q ∈ fs.dirs) →
      p <+: q → q.length > p.length → (q.drop p.length).head? = some a) :
    ∀ x ∈ fs.childNamesRaw p, x = a := by
  intro x hx
  unfold childNamesRaw at hx
  rw [List.mem_filterMap] at hx
  obtain ⟨q, hq, hfq⟩ := hx
  by_cases hc : p <+: q ∧ q.length > p.length
  · rw [if_pos hc] at hfq
    have := h q (by rwa [← List.mem_append]) hc.1 hc.2
    rw [this] at hfq
    exact (Option.some.injEq .. ▸ hfq).symm
  · rw [if_neg hc] at hfq
    exact absurd hfq (by simp)

theorem childNamesRaw_mem (fs : FS) (p : Path) (fname : String)
    (hmem : p ++ [fname] ∈ fs.files.map Prod.fst ∨
      p ++ [fname] ∈ fs.dirs) :
    fname ∈ fs.childNamesRaw p := by
  unfold childNamesRaw
  rw [List.mem_filterMap]
  refine ⟨p ++ [fname], by rwa [List.mem_append], ?_⟩
  rw [if_pos ⟨List.prefix_append .., by simp⟩]
  rw [List.drop_left]
  rfl

theorem childNames_single (fs : FS) (p : Path) (fname : String)
    (hmem : p ++ [fname] ∈ fs.files.map Prod.fst ∨ p ++ [fname] ∈ fs.dirs)
    (hall : ∀ q, (q ∈ fs.files.map Prod.fst ∨ q ∈ fs.dirs) →
      p <+: q → q.length > p.length → (q.drop p.length).head? = some fname) :
    fs.childNames p = [fname] := by
  unfold childNames
  rw [dedup_const (childNamesRaw_all fs p fname hall)
    (List.ne_nil_of_mem (childNamesRaw_mem fs p fname hmem))]
  rfl

theorem childNames_nil (fs : FS) (p : Path)
    (h : ∀ q, (q ∈ fs.files.map Prod.fst ∨ q ∈ fs.dirs) →
      ¬ (p <+: q ∧ q.length > p.length)) :
    fs.childNames p = [] := by
  unfold childNames childNamesRaw
  have : (fs.files.map Prod.fst ++ fs.dirs).filterMap (fun q =>
      if p <+: q ∧ q.length > p.length then (q.drop p.length).head?
      else none) = [] := by
    rw [List.filterMap_eq_nil_iff]
    intro q hq
    rw [if_neg (h q (by rwa [← List.mem_append]))]
  rw [this]
  rfl

theorem strictPrefix_iff (p q : Path) :
    strictPrefix p q = true ↔ (p <+: q ∧ p ≠ q) := by
  unfold strictPrefix
  simp

theorem strictPrefix_of_extend (p q : Path) (h : p <+: q)
    (hl : q.length > p.length) : strictPrefix p q = true := by
  rw [strictPrefix_iff]
  exact ⟨h, fun he => by simp [he] at hl⟩

/-- A directory with no strict extensions among files or recorded dirs is
gone (or never existed) after `removeIgnore`. -/
theorem dirExists_removeIgnore_self (fs : FS) (p : Path)
    (hfe : fs.fileExists p = false)
    (hd : ∀ d ∈ fs.dirs, strictPrefix p d = false)
    (hf : ∀ e ∈ fs.files, strictPrefix p e.1 = false) :
    (fs.removeIgnore p).dirExists p = false := by
  have hcn : fs.childNames p = [] := by
    apply childNames_nil
    rintro q hq ⟨hpre, hlen⟩
    have hsp := strictPrefix_of_extend p q hpre hlen
    rcases hq with hq | hq
    · rw [List.mem_map] at hq
      obtain ⟨e, he, hq⟩ := hq
      rw [← hq] at hsp
      rw [hf e he] at hsp
      exact absurd hsp (by simp)
    · rw [hd q hq] at hsp
      exact absurd hsp (by simp)
  unfold removeIgnore
  rw [hfe]
  simp only [Bool.false_eq_true, if_false]
  by_cases hde : fs.dirExists p = true
  · rw [if_pos (by rw [hde, hcn]; rfl)]
    unfold dirExists
    apply Bool.or_eq_false_iff.mpr
    constructor
    · rw [List.any_eq_false]
      intro d hdm
      have hdm2 := List.of_mem_filter hdm
      rw [decide_eq_true_iff] at hdm2
      have := hd d (List.mem_of_mem_filter hdm)
      simp only [this, Bool.or_false, decide_eq_true_iff]
      exact fun h => hdm2 h.symm
    · rw [List.any_eq_false]
      intro e he
      simp [hf e he]
  · rw [if_neg (by simp [hde])]
    exact Bool.not_eq_true _ ▸ (by simpa using hde)

theorem removeIgnore_files_of_not_file (fs : FS) (p : Path)
    (hfe : fs.fileExists p = false) :
    (fs.removeIgnore p).files = fs.files := by
  unfold removeIgnore
  rw [hfe]
  simp only [Bool.false_eq_true, if_false]
  by_cases hc : (fs.dirExists p && (fs.childNames p).isEmpty) = true
  · rw [if_pos hc]
  · rw [if_neg hc]

theorem lookupFile_removeIgnore_of_not_file (fs : FS) (p q : Path)
    (hfe : fs.fileExists p = false) :
    (fs.removeIgnore p).lookupFile q = fs.lookupFile q := by
  unfold lookupFile
  rw [removeIgnore_files_of_not_file fs p hfe]

theorem assocLookup_mem (l : List (Path × List Nat)) (q : Path)
    (c : List Nat) (h : assocLookup l q = some c) :
    ∃ e ∈ l, e.1 = q ∧ e.2 = c := by
  induction l with
  | nil => exact absurd h (by simp [assocLookup])
  | cons e t ih =>
    obtain ⟨e1, e2⟩ := e
    simp only [assocLookup] at h
    by_cases he : e1 = q
    · rw [if_pos he] at h
      exact ⟨(e1, e2), List.mem_cons_self .., he, (Option.some.injEq .. ▸ h)⟩
    · rw [if_neg he] at h
      obtain ⟨e', he', h1, h2⟩ := ih h
      exact ⟨e', List.mem_cons_of_mem _ he', h1, h2⟩

theorem lookupFile_mem (fs : FS) (q : Path) (c : List Nat)
    (h : fs.lookupFile q = some c) : ∃ e ∈ fs.files, e.1 = q ∧ e.2 = c :=
  assocLookup_mem fs.files q c h

theorem dirExists_of_mem_dirs (fs : FS) (p : Path) (h : p ∈ fs.dirs) :
    fs.dirExists p = true := by
  unfold dirExists
  apply Bool.or_eq_true_iff.mpr
  left
  rw [List.any_eq_true]
  exact ⟨p, h, by simp⟩

theorem mem_dirs_removeIgnore (fs : FS) (p q : Path) (hq : q ∈ fs.dirs)
    (hne : q ≠ p) : q ∈ (fs.removeIgnore p).dirs := by
  unfold removeIgnore
  by_cases h1 : fs.fileExists p = true
  · rw [if_pos h1]
    exact hq
  · rw [if_neg h1]
    by_cases h2 : (fs.dirExists p && (fs.childNames p).isEmpty) = true
    · rw [if_pos h2]
      exact List.mem_filter_of_mem hq (by simpa using hne)
    · rw [if_neg h2]
      exact hq

/-- `PickupFileinfo` at a single-file directory. -/
theorem pickup_single (fs : FS) (p : Path) (fname : String) (c : List Nat)
    (hdir : fs.dirExists p = true)
    (hcn : fs.childNames p = [fname])
    (hlook : fs.lookupFile (p ++ [fname]) = some c) :
    PickupFileinfo fs p = .ok ⟨fname, c.length⟩ := by
  have hrd : fs.readDir p = .ok [fname] := by
    unfold readDir
    rw [if_pos hdir, hcn]
  unfold PickupFileinfo
  rw [hrd]
  dsimp only
  unfold entrySize
  rw [hlook]

end FS

/-! ## Claim C5 -/

/-- C5 counterexample: calling `EnsurePutBlobBySession` on a state with no
session directory fails with an untyped error — `errCodeOf` is `none`, so
no `BLOB_UPLOAD_UNKNOWN` code is attached (`ServeJSON` would render
`UNKNOWN`/500) — and the digest directory has nonetheless been created by
the failing call, contradicting both halves of the claim. -/
theorem C5_ensurePutBlobBySession_counterexample :
    (EnsurePutBlobBySession "f47ac10b-58cc-4372-a567-0e02b2c3d479" "lib"
        "sha256:e3b0c44298fc1c149afbf4c8996fb92427ae41e4649b934ca495991b7852b855"
        FS.empty).2 =
      .error (.go (.pathNotExist
        ["testdata", "lib", "f47ac10b-58cc-4372-a567-0e02b2c3d479"])) ∧
    errCodeOf (EnsurePutBlobBySession "f47ac10b-58cc-4372-a567-0e02b2c3d479"
        "lib"
        "sha256:e3b0c44298fc1c149afbf4c8996fb92427ae41e4649b934ca495991b7852b855"
        FS.empty).2 = none ∧
    (EnsurePutBlobBySession "f47ac10b-58cc-4372-a567-0e02b2c3d479" "lib"
        "sha256:e3b0c44298fc1c149afbf4c8996fb92427ae41e4649b934ca495991b7852b855"
        FS.empty).1.dirExists
      ["testdata", "lib",
        "sha256:e3b0c44298fc1c149afbf4c8996fb92427ae41e4649b934ca495991b7852b855"]
      = true := by
  refine ⟨?_, ?_, ?_⟩ <;> decide

namespace FS

theorem strictPrefix_eq_false_of_not_prefix (p q : Path) (h : ¬ p <+: q) :
    strictPrefix p q = false := by
  unfold strictPrefix
  simp [h]

theorem strictPrefix_self (p : Path) : strictPrefix p p = false := by
  unfold strictPrefix
  simp

theorem pickup_ok (fs : FS) (p : Path) (fi : FileInfo)
    (h : PickupFileinfo fs p = .ok fi) :
    fs.dirExists p = true ∧ ∃ rest, fs.childNames p = fi.name :: rest := by
  unfold PickupFileinfo readDir at h
  by_cases hde : fs.dirExists p = true
  · rw [if_pos hde] at h
    refine ⟨hde, ?_⟩
    cases hcn : fs.childNames p with
    | nil => rw [hcn] at h; exact absurd h (by simp)
    | cons e1 rest =>
      rw [hcn] at h
      simp only [Except.ok.injEq] at h
      exact ⟨rest, by rw [← h]⟩
  · rw [if_neg hde] at h
    by_cases h2 : (fs.fileExists p || fs.files.any fun e =>
        strictPrefix e.1 p) = true
    · rw [if_pos h2] at h
      exact absurd h (by simp)
    · rw [if_neg h2] at h
      exact absurd h (by simp)

end FS

/-- C5 (amended): `EnsurePutBlobBySession` creates the digest directory
`B/N/D` up front, so it exists even when the call then fails; every failure
is an untyped error (no OCI code attached; `ServeJSON` renders it
`UNKNOWN`/500), in particular when the session directory is empty or
missing; when the session directory holds exactly the one layer file, the
call succeeds, the file is renamed into `B/N/D` and `B/N/S` is removed. -/
theorem C5_ensurePutBlobBySession_amended (sessionID name digest : String)
    (fs : FS) (fname : String) (c : List Nat)
    (hn : GoodName name) (hs : PComp sessionID) (hd : PComp digest)
    (hneq : sessionID ≠ digest) :
    ((EnsurePutBlobBySession sessionID name digest fs).1.dirExists
      ("testdata" :: splitPath name ++ [digest]) = true) ∧
    (∀ e, (EnsurePutBlobBySession sessionID name digest fs).2 = .error e →
      ∃ g, e = .go g) ∧
    ((fs.mkdirAll ("testdata" :: splitPath name ++ [digest])).childNames
        ("testdata" :: splitPath name ++ [sessionID]) = [] →
      (EnsurePutBlobBySession sessionID name digest fs).1 =
        fs.mkdirAll ("testdata" :: splitPath name ++ [digest]) ∧
      ∃ g, (EnsurePutBlobBySession sessionID name digest fs).2 =
        .error (.go g)) ∧
    (fs.lookupFile ("testdata" :: splitPath name ++ [sessionID] ++ [fname]) =
        some c →
     (∀ q ∈ fs.files.map Prod.fst,
        ("testdata" :: splitPath name ++ [sessionID]) <+: q →
        q = "testdata" :: splitPath name ++ [sessionID] ++ [fname]) →
     (∀ d ∈ fs.dirs, ("testdata" :: splitPath name ++ [sessionID]) <+: d →
        d = "testdata" :: splitPath name ++ [sessionID]) →
     (EnsurePutBlobBySession sessionID name digest fs).2 = .ok () ∧
     (EnsurePutBlobBySession sessionID name digest fs).1.lookupFile
       ("testdata" :: splitPath name ++ [digest] ++ [fname]) = some c ∧
     (EnsurePutBlobBySession sessionID name digest fs).1.lookupFile
       ("testdata" :: splitPath name ++ [sessionID] ++ [fname]) = none ∧
     (EnsurePutBlobBySession sessionID name digest fs).1.dirExists
       ("testdata" :: splitPath name ++ [sessionID]) = false) := by
  have hpd : PathJoinWithBase name [digest] =
      "testdata" :: splitPath name ++ [digest] :=
    pathJoinWithBase_plain name [digest] hn (by simpa using hd)
  have hps : PathJoinWithBase name [sessionID] =
      "testdata" :: splitPath name ++ [sessionID] :=
    pathJoinWithBase_plain name [sessionID] hn (by simpa using hs)
  set newDir : Path := "testdata" :: splitPath name ++ [digest] with hnewDir
  set oldDir : Path := "testdata" :: splitPath name ++ [sessionID]
    with holdDir
  -- oldDir is not a prefix of newDir ++ anything
  have key : ∀ suffix : List String, ¬ oldDir <+: (newDir ++ suffix) := by
    intro suffix h
    rw [hnewDir, holdDir] at h
    simp only [List.cons_append, List.append_assoc] at h
    rw [List.cons_prefix_cons] at h
    have h2 := (List.prefix_append_right_inj (splitPath name)).mp h.2
    rw [List.cons_prefix_cons] at h2
    exact hneq h2.1
  have hdirne : oldDir ≠ newDir := by
    intro h
    rw [hnewDir, holdDir] at h
    have h2 : splitPath name ++ [sessionID] = splitPath name ++ [digest] :=
      (List.cons.injEq .. ▸ h).2
    exact hneq (by simpa using List.append_cancel_left h2)
  -- the single-file facts, available once the C5 success hypotheses hold
  have singleFile : ∀ (hlook : fs.lookupFile (oldDir ++ [fname]) = some c)
      (honly : ∀ q ∈ fs.files.map Prod.fst, oldDir <+: q →
        q = oldDir ++ [fname]),
      (∀ d ∈ fs.dirs, oldDir <+: d → d = oldDir) →
      PickupFileinfo (fs.mkdirAll newDir) oldDir =
        .ok ⟨fname, c.length⟩ := by
    intro hlook honly hdirs
    obtain ⟨e, he, he1, he2⟩ := FS.lookupFile_mem fs (oldDir ++ [fname]) c
      hlook
    apply FS.pickup_single _ _ _ c
    · unfold FS.mkdirAll FS.dirExists
      apply Bool.or_eq_true_iff.mpr
      right
      rw [List.any_eq_true]
      refine ⟨e, he, ?_⟩
      rw [he1]
      exact FS.strictPrefix_of_extend _ _ (List.prefix_append ..) (by simp)
    · apply FS.childNames_single
      · left
        rw [List.mem_map]
        exact ⟨e, he, he1⟩
      · intro q hq hpre hlen
        rcases hq with hq | hq
        · have hq2 := honly q hq hpre
          rw [hq2, List.drop_left]
          rfl
        · simp only [FS.mkdirAll] at hq
          rw [List.mem_cons] at hq
          rcases hq with hq | hq
          · rw [hq] at hpre
            exact absurd hpre (by simpa using key [])
          · have := hdirs q hq hpre
            rw [this] at hlen
            exact absurd hlen (by simp)
    · exact hlook
  unfold EnsurePutBlobBySession
  dsimp only
  rw [hpd, hps]
  rcases hpk : PickupFileinfo (fs.mkdirAll newDir) oldDir with e0 | fi
  · -- PickupFileinfo failed: result is (fs.mkdirAll newDir, untyped error)
    dsimp only
    refine ⟨FS.dirExists_mkdirAll_self fs newDir, ?_, ?_, ?_⟩
    · intro e he
      simp only [Except.error.injEq] at he
      exact ⟨e0, he.symm⟩
    · intro _
      exact ⟨rfl, e0, rfl⟩
    · intro hlook honly hdirs
      rw [singleFile hlook honly hdirs] at hpk
      exact absurd hpk (by simp)
  · -- PickupFileinfo succeeded with entry `fi`
    rcases hlk : (fs.mkdirAll newDir).lookupFile (oldDir ++ [fi.name])
      with _ | c1
    · -- the entry cannot be opened: rename fails, untyped error
      have hrn : (fs.mkdirAll newDir).rename (oldDir ++ [fi.name])
          (newDir ++ [fi.name]) =
          .error (.pathNotExist (oldDir ++ [fi.name])) := by
        unfold FS.rename
        rw [hlk]
      dsimp only
      rw [hrn]
      dsimp only
      refine ⟨FS.dirExists_mkdirAll_self fs newDir, ?_, ?_, ?_⟩
      · intro e he
        simp only [Except.error.injEq] at he
        exact ⟨_, he.symm⟩
      · intro hcn0
        obtain ⟨_, rest, hrest⟩ := FS.pickup_ok _ _ _ hpk
        rw [hcn0] at hrest
        exact absurd hrest (by simp)
      · intro hlook honly hdirs
        rw [singleFile hlook honly hdirs] at hpk
        simp only [Except.ok.injEq] at hpk
        rw [← hpk] at hlk
        rw [FS.lookupFile_mkdirAll] at hlk
        rw [hlook] at hlk
        exact absurd hlk (by simp)
    · -- the layer file is renamed into the digest directory
      have hrn : (fs.mkdirAll newDir).rename (oldDir ++ [fi.name])
          (newDir ++ [fi.name]) =
          .ok (((fs.mkdirAll newDir).deleteFile
            (oldDir ++ [fi.name])).createFile (newDir ++ [fi.name]) c1) := by
        unfold FS.rename
        rw [hlk]
      dsimp only
      rw [hrn]
      dsimp only
      set fs2 : FS := ((fs.mkdirAll newDir).deleteFile
        (oldDir ++ [fi.name])).createFile (newDir ++ [fi.name]) c1
        with hfs2
      have hfs2dirs : fs2.dirs = newDir :: fs.dirs := rfl
      refine ⟨?_, ?_, ?_, ?_⟩
      · apply FS.dirExists_of_mem_dirs
        apply FS.mem_dirs_removeIgnore
        · rw [hfs2dirs]
          exact List.mem_cons_self ..
        · exact fun h => hdirne h.symm
      · intro e he
        exact absurd he (by simp)
      · intro hcn0
        obtain ⟨_, rest, hrest⟩ := FS.pickup_ok _ _ _ hpk
        rw [hcn0] at hrest
        exact absurd hrest (by simp)
      · intro hlook honly hdirs
        rw [singleFile hlook honly hdirs] at hpk
        simp only [Except.ok.injEq] at hpk
        have hfin : fi.name = fname := by rw [← hpk]
        rw [hfin] at hlk hfs2
        have hc1 : c1 = c := by
          rw [FS.lookupFile_mkdirAll, hlook] at hlk
          exact (Option.some.injEq .. ▸ hlk).symm
        have hlen_old_newpath : oldDir ≠ newDir ++ [fname] := by
          intro h
          have hl := congrArg List.length h
          rw [hnewDir, holdDir] at hl
          simp only [List.length_append, List.length_cons] at hl
          omega
        have hlen_old_oldpath : oldDir ≠ oldDir ++ [fname] := by
          intro h
          have hl := congrArg List.length h
          simp only [List.length_append, List.length_cons] at hl
          omega
        have hpathne : oldDir ++ [fname] ≠ newDir ++ [fname] := by
          intro h
          exact hdirne (List.append_cancel_right h)
        -- the session directory path itself holds no file
        have hoodnone : fs2.lookupFile oldDir = none := by
          rw [hfs2]
          rw [FS.lookupFile_createFile_ne _ _ _ _ hlen_old_newpath]
          rw [FS.lookupFile_deleteFile _ _ _ hlen_old_oldpath]
          rw [FS.lookupFile_mkdirAll]
          by_cases hsome : (fs.lookupFile oldDir).isSome = true
          · exfalso
            obtain ⟨c2, hc2⟩ := Option.isSome_iff_exists.mp hsome
            obtain ⟨e2, he2, he21, _⟩ := FS.lookupFile_mem fs oldDir c2 hc2
            have hcontra := honly oldDir (List.mem_map.mpr ⟨e2, he2, he21⟩)
              (List.prefix_refl _)
            exact hlen_old_oldpath hcontra
          · exact Option.not_isSome_iff_eq_none.mp (by simpa using hsome)
        have hoodnotfile : fs2.fileExists oldDir = false := by
          unfold FS.fileExists
          rw [hoodnone]
          rfl
        refine ⟨rfl, ?_, ?_, ?_⟩
        · rw [FS.lookupFile_removeIgnore_of_not_file _ _ _ hoodnotfile]
          rw [hfs2]
          rw [FS.lookupFile_createFile_self]
          rw [hc1]
        · rw [FS.lookupFile_removeIgnore_of_not_file _ _ _ hoodnotfile]
          rw [hfs2]
          rw [FS.lookupFile_createFile_ne _ _ _ _ hpathne]
          exact FS.lookupFile_deleteFile_self ..
        · apply FS.dirExists_removeIgnore_self _ _ hoodnotfile
          · intro d hd2
            rw [hfs2dirs, List.mem_cons] at hd2
            rcases hd2 with hd2 | hd2
            · rw [hd2]
              apply FS.strictPrefix_eq_false_of_not_prefix
              intro hpre
              exact key [] (by simpa using hpre)
            · by_cases hpre : oldDir <+: d
              · rw [hdirs d hd2 hpre]
                exact FS.strictPrefix_self oldDir
              · exact FS.strictPrefix_eq_false_of_not_prefix _ _ hpre
          · intro e he2
            rw [hfs2] at he2
            simp only [FS.createFile, FS.deleteFile, FS.mkdirAll,
              List.mem_cons] at he2
            rcases he2 with he2 | he2
            · rw [he2]
              exact FS.strictPrefix_eq_false_of_not_prefix _ _ (key [fname])
            · have hmem1 := List.mem_of_mem_filter he2
              have hne1 := List.of_mem_filter he2
              rw [decide_eq_true_iff] at hne1
              have hmem2 := List.mem_of_mem_filter hmem1
              have hne2 := List.of_mem_filter hmem1
              rw [decide_eq_true_iff] at hne2
              by_cases hpre : oldDir <+: e.1
              · have := honly e.1 (List.mem_map.mpr ⟨e, hmem2, rfl⟩) hpre
                exact absurd this hne2
              · exact FS.strictPrefix_eq_false_of_not_prefix _ _ hpre


/-- Witness for C5: a session holding one layer file finalizes into the
digest directory and the session directory disappears. -/
theorem C5_ensurePutBlobBySession_amended_witness :
    (EnsurePutBlobBySession "sess-1" "lib"
        "sha256:e3b0c44298fc1c149afbf4c8996fb92427ae41e4649b934ca495991b7852b855"
        ((FS.empty.mkdirAll ["testdata", "lib", "sess-1"]).createFile
          ["testdata", "lib", "sess-1", "layer.json"] [65])).2 = .ok () ∧
    (EnsurePutBlobBySession "sess-1" "lib"
        "sha256:e3b0c44298fc1c149afbf4c8996fb92427ae41e4649b934ca495991b7852b855"
        ((FS.empty.mkdirAll ["testdata", "lib", "sess-1"]).createFile
          ["testdata", "lib", "sess-1", "layer.json"] [65])).1.lookupFile
      ("testdata" :: splitPath "lib" ++
        ["sha256:e3b0c44298fc1c149afbf4c8996fb92427ae41e4649b934ca495991b7852b855"]
        ++ ["layer.json"]) = some [65] ∧
    (EnsurePutBlobBySession "sess-1" "lib"
        "sha256:e3b0c44298fc1c149afbf4c8996fb92427ae41e4649b934ca495991b7852b855"
        ((FS.empty.mkdirAll ["testdata", "lib", "sess-1"]).createFile
          ["testdata", "lib", "sess-1", "layer.json"] [65])).1.dirExists
      ("testdata" :: splitPath "lib" ++ ["sess-1"]) = false := by
  have h := C5_ensurePutBlobBySession_amended "sess-1" "lib"
    "sha256:e3b0c44298fc1c149afbf4c8996fb92427ae41e4649b934ca495991b7852b855"
    ((FS.empty.mkdirAll ["testdata", "lib", "sess-1"]).createFile
      ["testdata", "lib", "sess-1", "layer.json"] [65]) "layer.json" [65]
    (by decide) (by decide) (by decide) (by decide)
  have h4 := h.2.2.2 (by decide) (by decide) (by decide)
  exact ⟨h4.1, h4.2.1, h4.2.2.2⟩

/-! ## Claim C7 -/

/-- C7 counterexample: a ZIP-signature input is not a gzip archive, yet
`CreateLayer` (with the `filetype.IsArchive` predicate) names the file
`layer.tar.gz` — the extension tracks the library's whole archive class,
not gzip alone. -/
theorem C7_createLayer_counterexample :
    (CreateLayer filetypeIsArchive [0x50, 0x4B, 0x03, 0x04] ["d"]
      FS.empty).2.2 = "layer.tar.gz" ∧
    isGzip (sniffBuffer [0x50, 0x4B, 0x03, 0x04]) = false ∧
    isGzip [0x50, 0x4B, 0x03, 0x04] = false := by
  refine ⟨rfl, ?_, ?_⟩ <;> decide

/-- C7 (amended): `CreateLayer` sniffs at most the first 8 KiB, writes the
single file `dir/layer.<ext>` whose content is the sniffed bytes followed
by the remainder — the whole input stream, nothing discarded — returns the
total bytes written, and picks `.tar.gz` exactly when the sniff buffer
matches the archive predicate (`filetype.IsArchive`, which accepts gzip
but also zip, tar, and the library's other archive signatures), `.json`
otherwise. -/
theorem C7_createLayer_amended (isArch : List Nat → Bool) (body : List Nat)
    (dir : Path) (fs : FS) :
    (CreateLayer isArch body dir fs).2.2 =
      "layer" ++
        (if isArch (sniffBuffer body) then ".tar.gz" else ".json") ∧
    (CreateLayer isArch body dir fs).1 =
      fs.createFile (dir ++ [(CreateLayer isArch body dir fs).2.2]) body ∧
    (CreateLayer isArch body dir fs).2.1 = body.length ∧
    (∀ buf, isGzip buf = true → filetypeIsArchive buf = true) := by
  refine ⟨rfl, ?_, ?_, ?_⟩
  · unfold CreateLayer
    rw [List.take_append_drop]
  · unfold CreateLayer
    dsimp only
    rw [List.take_append_drop]
  · intro buf h
    unfold filetypeIsArchive
    rw [h]
    rfl

/-! ## Removal frame lemmas -/

namespace FS

theorem any_filter_imp {α : Type} (l : List α) (f g : α → Bool)
    (h : (l.filter f).any g = true) : l.any g = true := by
  rw [List.any_eq_true] at h ⊢
  obtain ⟨x, hx, hg⟩ := h
  exact ⟨x, List.mem_of_mem_filter hx, hg⟩

theorem assocLookup_isSome_of_mem (l : List (Path × List Nat)) (p : Path)
    (h : ∃ e ∈ l, e.1 = p) : (assocLookup l p).isSome = true := by
  induction l with
  | nil => simp at h
  | cons e t ih =>
    obtain ⟨e1, e2⟩ := e
    simp only [assocLookup]
    by_cases he : e1 = p
    · rw [if_pos he]
      rfl
    · rw [if_neg he]
      apply ih
      obtain ⟨x, hx, hxp⟩ := h
      rcases List.mem_cons.mp hx with hx | hx
      · exact absurd (by rw [hx] at hxp; exact hxp) he
      · exact ⟨x, hx, hxp⟩

theorem fileExists_iff_mem (fs : FS) (p : Path) :
    fs.fileExists p = true ↔ ∃ e ∈ fs.files, e.1 = p := by
  constructor
  · intro h
    unfold fileExists lookupFile at h
    obtain ⟨c, hc⟩ := Option.isSome_iff_exists.mp h
    obtain ⟨e, he, he1, _⟩ := assocLookup_mem fs.files p c hc
    exact ⟨e, he, he1⟩
  · exact assocLookup_isSome_of_mem fs.files p

theorem fileExists_removeAll_imp (fs : FS) (q p : Path)
    (h : (fs.removeAll q).fileExists p = true) : fs.fileExists p = true := by
  rw [fileExists_iff_mem] at h ⊢
  obtain ⟨e, he, he1⟩ := h
  exact ⟨e, List.mem_of_mem_filter he, he1⟩

theorem statE_notExist_removeAll (fs : FS) (p q : Path)
    (h : fs.statE p = some .notExist) :
    (fs.removeAll q).statE p = some .notExist := by
  unfold statE at h ⊢
  by_cases h1 : (fs.fileExists p || fs.dirExists p) = true
  · rw [if_pos h1] at h
    exact absurd h (by simp)
  · rw [if_neg h1] at h
    by_cases h2 : fs.files.any (fun e => strictPrefix e.1 p) = true
    · rw [if_pos h2] at h
      exact absurd h (by simp)
    · have h1f : (fs.fileExists p || fs.dirExists p) = false := by
        simpa using h1
      have hfe0 := (Bool.or_eq_false_iff.mp h1f).1
      have hde0 := (Bool.or_eq_false_iff.mp h1f).2
      have hfe : (fs.removeAll q).fileExists p = false := by
        by_cases hx : (fs.removeAll q).fileExists p = true
        · rw [fileExists_removeAll_imp fs q p hx] at hfe0
          exact absurd hfe0 (by simp)
        · simpa using hx
      have hde : (fs.removeAll q).dirExists p = false := by
        by_cases hx : (fs.removeAll q).dirExists p = true
        · exfalso
          have hcontra : fs.dirExists p = true := by
            unfold dirExists removeAll at hx
            unfold dirExists
            rcases Bool.or_eq_true_iff.mp hx with hy | hy
            · exact Bool.or_eq_true_iff.mpr
                (Or.inl (any_filter_imp _ _ _ hy))
            · exact Bool.or_eq_true_iff.mpr
                (Or.inr (any_filter_imp _ _ _ hy))
          rw [hcontra] at hde0
          exact absurd hde0 (by simp)
        · simpa using hx
      rw [if_neg (by rw [hfe, hde]; simp)]
      rw [if_neg ?_]
      intro hx
      exact (by simpa using h2 : ¬ _) (any_filter_imp _ _ _ hx)

theorem any_filter_eq_of_irrelevant {α : Type} (l : List α) (f g : α → Bool)
    (h : ∀ x ∈ l, f x = false → g x = false) :
    (l.filter f).any g = l.any g := by
  induction l with
  | nil => rfl
  | cons x t ih =>
    by_cases hf : f x = true
    · rw [List.filter_cons_of_pos hf, List.any_cons, List.any_cons,
        ih (fun y hy => h y (List.mem_cons_of_mem _ hy))]
    · rw [List.filter_cons_of_neg (by simpa using hf), List.any_cons]
      rw [h x (List.mem_cons_self ..) (by simpa using hf)]
      rw [ih (fun y hy => h y (List.mem_cons_of_mem _ hy))]
      simp

theorem lookupFile_eq_of_removeAll_frame (fs : FS) (q p : Path)
    (h1 : ¬ q <+: p) :
    (fs.removeAll q).lookupFile p = fs.lookupFile p :=
  lookupFile_removeAll_of_not_prefix fs q p h1

/-- `os.Stat` is unchanged by removing a subtree that neither contains nor
is contained in the queried path. -/
theorem statE_removeAll_frame (fs : FS) (q p : Path)
    (h1 : ¬ q <+: p) (h2 : ¬ p <+: q) :
    (fs.removeAll q).statE p = fs.statE p := by
  have hfe : (fs.removeAll q).fileExists p = fs.fileExists p := by
    unfold fileExists
    rw [ lookupFile_removeAll_of_not_prefix fs q p h1]
  have hde : (fs.removeAll q).dirExists p = fs.dirExists p := by
    unfold dirExists removeAll
    dsimp only
    rw [any_filter_eq_of_irrelevant, any_filter_eq_of_irrelevant]
    · intro e he hf
      rw [decide_eq_false_iff_not, not_not] at hf
      by_cases hsp : strictPrefix p e.1 = true
      · exfalso
        rw [strictPrefix_iff] at hsp
        rcases List.prefix_or_prefix_of_prefix hsp.1 hf with hc | hc
        · exact h2 hc
        · exact h1 hc
      · simpa using hsp
    · intro d hd hf
      rw [decide_eq_false_iff_not, not_not] at hf
      by_cases hsp : (p = d || strictPrefix p d) = true
      · exfalso
        rcases Bool.or_eq_true_iff.mp hsp with hc | hc
        · rw [decide_eq_true_iff] at hc
          exact h1 (hc ▸ hf)
        · rw [strictPrefix_iff] at hc
          rcases List.prefix_or_prefix_of_prefix hc.1 hf with hcc | hcc
          · exact h2 hcc
          · exact h1 hcc
      · simpa using hsp
  have hpre : (fs.removeAll q).files.any (fun e => strictPrefix e.1 p) =
      fs.files.any (fun e => strictPrefix e.1 p) := by
    unfold removeAll
    dsimp only
    apply any_filter_eq_of_irrelevant
    intro e he hf
    rw [decide_eq_false_iff_not, not_not] at hf
    by_cases hsp : strictPrefix e.1 p = true
    · exfalso
      rw [strictPrefix_iff] at hsp
      exact h1 (hf.trans hsp.1)
    · simpa using hsp
  unfold statE
  rw [hfe, hde, hpre]

end FS

/-! ## Claim C4 -/

/-- C4: `DeleteManifestByImage(N, T)` fails with HTTP status 400 exactly
when the tag is unknown; on an existing tag it succeeds (the handler
answers 202) and removes the tag file, after which a manifest lookup by `T`
fails `MANIFEST_UNKNOWN` (404) while lookups of any other tag of `N` are
untouched.  (The stat of `B/N/tags/T/manifest.json` fails `ENOTDIR` — not
`ENOENT` — when the tag file exists, so Go 1.15's `os.IsNotExist` lets the
deletion proceed.) -/
theorem C4_deleteManifestByImage (name T T' : String) (fs : FS)
    (tc c' : List Nat) (hn : GoodName name) (ht : PComp T)
    (ht' : PComp T') (hTT' : T' ≠ T) :
    ((fs.lookupFile ("testdata" :: splitPath name ++ ["tags", T]) = some tc) →
     (∀ e ∈ fs.files,
        FS.strictPrefix ("testdata" :: splitPath name ++ ["tags", T]) e.1 =
          false) →
     (∀ d ∈ fs.dirs, ¬ ("testdata" :: splitPath name ++ ["tags", T]) <+: d) →
     DeleteManifestByImage name T fs =
       (fs.removeAll ("testdata" :: splitPath name ++ ["tags", T]),
         .ok ()) ∧
     (DeleteManifest name T fs).2.status = some 202) ∧
    ((fs.lookupFile ("testdata" :: splitPath name ++ ["tags", T]) = some tc) →
     fs.statE ("testdata" :: splitPath name ++ [T, "manifest.json"]) =
       some .notExist →
     errCodeOf (FindManifestByImage name T
        (fs.removeAll ("testdata" :: splitPath name ++ ["tags", T]))) =
       some "MANIFEST_UNKNOWN" ∧
     errStatusOf (FindManifestByImage name T
        (fs.removeAll ("testdata" :: splitPath name ++ ["tags", T]))) =
       some 404) ∧
    ((fs.lookupFile ("testdata" :: splitPath name ++ ["tags", T']) =
        some c') →
     PComp (stringOfBytes c') → stringOfBytes c' ≠ "tags" →
     FindManifestByImage name T'
        (fs.removeAll ("testdata" :: splitPath name ++ ["tags", T])) =
       FindManifestByImage name T' fs) ∧
    ((∀ e ∈ fs.files,
        ¬ ("testdata" :: splitPath name ++ ["tags", T]) <+: e.1) →
     (∀ d ∈ fs.dirs, ¬ ("testdata" :: splitPath name ++ ["tags", T]) <+: d) →
     fs.files.any (fun e => FS.strictPrefix e.1
        ("testdata" :: splitPath name ++ ["tags", T] ++ ["manifest.json"])) =
       false →
     ∃ e, DeleteManifestByImage name T fs = (fs, .error (.typed e)) ∧
       e.statusCode = 400) := by
  have hptag : PathJoinWithBase name [baseTagDir, T] =
      "testdata" :: splitPath name ++ ["tags", T] := by
    rw [pathJoinWithBase_plain name [baseTagDir, T] hn
      (by intro c hc
          rcases List.mem_cons.mp hc with hc | hc
          · exact hc ▸ (by decide : PComp baseTagDir)
          rcases List.mem_cons.mp hc with hc | hc
          · exact hc ▸ ht
          · simp at hc)]
    rfl
  have hptag' : PathJoinWithBase name [baseTagDir, T'] =
      "testdata" :: splitPath name ++ ["tags", T'] := by
    rw [pathJoinWithBase_plain name [baseTagDir, T'] hn
      (by intro c hc
          rcases List.mem_cons.mp hc with hc | hc
          · exact hc ▸ (by decide : PComp baseTagDir)
          rcases List.mem_cons.mp hc with hc | hc
          · exact hc ▸ ht'
          · simp at hc)]
    rfl
  set tagPath : Path := "testdata" :: splitPath name ++ ["tags", T]
    with htagPath
  have hnp_tfp' : ¬ tagPath <+: ("testdata" :: splitPath name ++
      ["tags", T']) := by
    intro h
    rw [htagPath] at h
    simp only [List.cons_append, List.cons_prefix_cons] at h
    have h2 := (List.prefix_append_right_inj (splitPath name)).mp h.2
    rw [List.cons_prefix_cons, List.cons_prefix_cons] at h2
    exact hTT' h2.2.1.symm
  refine ⟨?_, ?_, ?_, ?_⟩
  · -- deleting an existing tag succeeds
    intro h1 h2 h3
    have hstat : ¬ fs.statE (tagPath ++ ["manifest.json"]) =
        some .notExist := by
      obtain ⟨e0, he0, he01, _⟩ := FS.lookupFile_mem fs tagPath tc h1
      unfold FS.statE
      by_cases hc1 : (fs.fileExists (tagPath ++ ["manifest.json"]) ||
          fs.dirExists (tagPath ++ ["manifest.json"])) = true
      · rw [if_pos hc1]
        simp
      · rw [if_neg hc1]
        rw [if_pos ?_]
        · simp
        · rw [List.any_eq_true]
          refine ⟨e0, he0, ?_⟩
          rw [he01]
          exact FS.strictPrefix_of_extend _ _ (List.prefix_append ..)
            (by simp)
    have hdel : DeleteManifestByImage name T fs =
        (fs.removeAll tagPath, .ok ()) := by
      unfold DeleteManifestByImage
      dsimp only
      rw [hptag]
      rw [if_neg hstat]
    refine ⟨hdel, ?_⟩
    unfold DeleteManifest
    rw [hdel]
  · -- after deletion, lookup by T is MANIFEST_UNKNOWN
    intro h1 hman
    have hfe' : (fs.removeAll tagPath).fileExists tagPath = false := by
      unfold FS.fileExists
      rw [ FS.lookupFile_removeAll_of_prefix fs tagPath tagPath
        (List.prefix_refl _)]
      rfl
    have hde' : (fs.removeAll tagPath).dirExists tagPath = false := by
      unfold FS.dirExists FS.removeAll
      dsimp only
      apply Bool.or_eq_false_iff.mpr
      constructor
      · rw [List.any_eq_false]
        intro d hd
        have hkeep := List.of_mem_filter hd
        rw [decide_eq_true_iff] at hkeep
        intro hor
        rcases Bool.or_eq_true_iff.mp hor with hz | hz
        · rw [decide_eq_true_iff] at hz
          exact hkeep (by rw [hz])
        · rw [FS.strictPrefix_iff] at hz
          exact hkeep hz.1
      · rw [List.any_eq_false]
        intro e he
        have hkeep := List.of_mem_filter he
        rw [decide_eq_true_iff] at hkeep
        intro hz
        rw [FS.strictPrefix_iff] at hz
        exact hkeep hz.1
    obtain ⟨x, hx⟩ : ∃ x, (fs.removeAll tagPath).statE tagPath = some x := by
      unfold FS.statE
      rw [if_neg (by rw [hfe', hde']; simp)]
      by_cases hc : (fs.removeAll tagPath).files.any
          (fun e => FS.strictPrefix e.1 tagPath) = true
      · exact ⟨_, if_pos hc⟩
      · exact ⟨_, if_neg hc⟩
    have hman' := FS.statE_notExist_removeAll fs
      ("testdata" :: splitPath name ++ [T, "manifest.json"]) tagPath hman
    have hpm : PathJoinWithBase name [T, "manifest.json"] =
        "testdata" :: splitPath name ++ [T, "manifest.json"] := by
      rw [pathJoinWithBase_plain name [T, "manifest.json"] hn
        (by intro c hc
            rcases List.mem_cons.mp hc with hc | hc
            · exact hc ▸ ht
            rcases List.mem_cons.mp hc with hc | hc
            · exact hc ▸ (by decide : PComp "manifest.json")
            · simp at hc)]
    unfold FindManifestByImage
    dsimp only
    rw [hptag, hx]
    dsimp only
    rw [hpm, if_pos hman']
    exact ⟨rfl, rfl⟩
  · -- other tags resolve exactly as before
    intro hT'c hD' hD'2
    have hlk' : (fs.removeAll tagPath).lookupFile
        ("testdata" :: splitPath name ++ ["tags", T']) =
        fs.lookupFile ("testdata" :: splitPath name ++ ["tags", T']) :=
      FS.lookupFile_removeAll_of_not_prefix fs tagPath _ hnp_tfp'
    have hstatT' : fs.statE ("testdata" :: splitPath name ++ ["tags", T']) =
        none := by
      unfold FS.statE
      rw [if_pos ?_]
      apply Bool.or_eq_true_iff.mpr
      left
      unfold FS.fileExists
      rw [hT'c]
      rfl
    have hstatT'2 : (fs.removeAll tagPath).statE
        ("testdata" :: splitPath name ++ ["tags", T']) = none := by
      unfold FS.statE
      rw [if_pos ?_]
      apply Bool.or_eq_true_iff.mpr
      left
      unfold FS.fileExists
      rw [hlk', hT'c]
      rfl
    have hpm' : PathJoinWithBase name [stringOfBytes c', "manifest.json"] =
        "testdata" :: splitPath name ++ [stringOfBytes c', "manifest.json"]
        := by
      rw [pathJoinWithBase_plain name [stringOfBytes c', "manifest.json"] hn
        (by intro c hc
            rcases List.mem_cons.mp hc with hc | hc
            · exact hc ▸ hD'
            rcases List.mem_cons.mp hc with hc | hc
            · exact hc ▸ (by decide : PComp "manifest.json")
            · simp at hc)]
    have hfr1 : ¬ tagPath <+:
        ("testdata" :: splitPath name ++ [stringOfBytes c',
          "manifest.json"]) := by
      intro h
      rw [htagPath] at h
      simp only [List.cons_append, List.cons_prefix_cons] at h
      have h2 := (List.prefix_append_right_inj (splitPath name)).mp h.2
      rw [List.cons_prefix_cons] at h2
      exact hD'2 h2.1.symm
    have hfr2 : ¬ ("testdata" :: splitPath name ++ [stringOfBytes c',
        "manifest.json"]) <+: tagPath := by
      intro h
      rw [htagPath] at h
      simp only [List.cons_append, List.cons_prefix_cons] at h
      have h2 := (List.prefix_append_right_inj (splitPath name)).mp h.2
      rw [List.cons_prefix_cons] at h2
      exact hD'2 h2.1
    unfold FindManifestByImage
    dsimp only
    rw [hptag', hstatT', hstatT'2]
    dsimp only
    rw [hlk', hT'c]
    dsimp only
    rw [hpm']
    rw [FS.statE_removeAll_frame fs tagPath _ hfr1 hfr2]
    rw [ FS.lookupFile_removeAll_of_not_prefix fs tagPath _ hfr1]
  · -- unknown tag: typed 400
    intro hBf hBd hBpre
    have hstat : fs.statE (tagPath ++ ["manifest.json"]) =
        some .notExist := by
      unfold FS.statE
      rw [if_neg ?_, if_neg (by simpa using hBpre)]
      rw [Bool.or_eq_true_iff]
      rintro (hc | hc)
      · rw [FS.fileExists_iff_mem] at hc
        obtain ⟨e, he, he1⟩ := hc
        exact hBf e he (he1 ▸ List.prefix_append ..)
      · unfold FS.dirExists at hc
        rcases Bool.or_eq_true_iff.mp hc with hy | hy
        · rw [List.any_eq_true] at hy
          obtain ⟨d, hd, hdp⟩ := hy
          rcases Bool.or_eq_true_iff.mp hdp with hz | hz
          · rw [decide_eq_true_iff] at hz
            exact hBd d hd (hz ▸ List.prefix_append ..)
          · rw [FS.strictPrefix_iff] at hz
            exact hBd d hd ((List.prefix_append ..).trans hz.1)
        · rw [List.any_eq_true] at hy
          obtain ⟨e, he, hep⟩ := hy
          rw [FS.strictPrefix_iff] at hep
          exact hBf e he ((List.prefix_append ..).trans hep.1)
    refine ⟨Wrap (some (.pathNotExist (tagPath ++ ["manifest.json"])))
      [WithStatusCode 400], ?_, rfl⟩
    unfold DeleteManifestByImage
    dsimp only
    rw [hptag]
    rw [if_pos hstat]

/-- Witness for C4: deleting the existing tag `latest` succeeds and makes
its lookup `MANIFEST_UNKNOWN` while `other` resolves as before; deleting
the unknown tag `nope` fails with status 400. -/
theorem C4_deleteManifestByImage_witness :
    DeleteManifestByImage "lib" "latest" sampleTagsFS =
      (sampleTagsFS.removeAll
        ("testdata" :: splitPath "lib" ++ ["tags", "latest"]), .ok ()) ∧
    errCodeOf (FindManifestByImage "lib" "latest"
      (sampleTagsFS.removeAll
        ("testdata" :: splitPath "lib" ++ ["tags", "latest"]))) =
      some "MANIFEST_UNKNOWN" ∧
    FindManifestByImage "lib" "other"
      (sampleTagsFS.removeAll
        ("testdata" :: splitPath "lib" ++ ["tags", "latest"])) =
      FindManifestByImage "lib" "other" sampleTagsFS ∧
    ∃ e, DeleteManifestByImage "lib" "nope" sampleTagsFS =
      (sampleTagsFS, .error (.typed e)) ∧ e.statusCode = 400 := by
  have h := C4_deleteManifestByImage "lib" "latest" "other" sampleTagsFS
    (bytesOfString "sha256:aa") (bytesOfString "sha256:bb")
    (by decide) (by decide) (by decide) (by decide)
  have h2 := C4_deleteManifestByImage "lib" "nope" "other" sampleTagsFS
    [] (bytesOfString "sha256:bb")
    (by decide) (by decide) (by decide) (by decide)
  exact ⟨(h.1 (by decide) (by decide) (by decide)).1,
    (h.2.1 (by decide) (by decide)).1,
    h.2.2.1 (by decide) (by decide) (by decide),
    h2.2.2.2 (by decide) (by decide) (by decide)⟩

/-- Witness for C7: a gzip-magic input keeps the `.tar.gz` name and the
archive predicate accepts it. -/
theorem C7_createLayer_amended_witness :
    (CreateLayer filetypeIsArchive [0x1F, 0x8B, 0x08] ["d"] FS.empty).2.2 =
      "layer" ++ (if filetypeIsArchive (sniffBuffer [0x1F, 0x8B, 0x08])
        then ".tar.gz" else ".json") ∧
    filetypeIsArchive [0x1F, 0x8B, 0x08] = true := by
  have h := C7_createLayer_amended filetypeIsArchive [0x1F, 0x8B, 0x08]
    ["d"] FS.empty
  exact ⟨h.1, h.2.2.2 [0x1F, 0x8B, 0x08] (by decide)⟩

/-! ## Claim C1 -/

/-- C1 evaluation at the failing inputs: after an initial full-replace
PATCH stores one byte in the session, (a) a correctly aligned ranged PATCH
(`Content-Range: 1-1`, `Content-Length: 1`, range start = current size 1)
returns a bare 200 with no headers and leaves the session file unchanged —
the body is never appended and no 202 is produced; (b) a misaligned ranged
PATCH (start 5 ≠ size 1) returns the same bare 200 instead of the claimed
416 `BLOB_UPLOAD_UNKNOWN`; (c) on a fresh session (file absent, start 0)
the handler returns the wrapped stat error — status 404, OCI code
`UNKNOWN` — instead of appending.  The cause: after
`CheckBlobByReference`, `if !os.IsNotExist(errors.Unwrap(err)) { return
err }` always fires, because a nil error unwraps to nil and the typed
`*Error` has no `Unwrap` method, so the offset check and the append branch
are unreachable. -/
theorem C1_pushBlobPatch_code_bug :
    (PushBlobPatch filetypeIsArchive "lib"
      "f47ac10b-58cc-4372-a567-0e02b2c3d479" "1-1" "1" [66]
      (PushBlobPatch filetypeIsArchive "lib"
        "f47ac10b-58cc-4372-a567-0e02b2c3d479" "" "" [65] FS.empty).1).1 =
      (PushBlobPatch filetypeIsArchive "lib"
        "f47ac10b-58cc-4372-a567-0e02b2c3d479" "" "" [65] FS.empty).1 ∧
    runHandler (PushBlobPatch filetypeIsArchive "lib"
      "f47ac10b-58cc-4372-a567-0e02b2c3d479" "1-1" "1" [66]
      (PushBlobPatch filetypeIsArchive "lib"
        "f47ac10b-58cc-4372-a567-0e02b2c3d479" "" "" [65] FS.empty).1).2 =
      ⟨200, none, [], []⟩ ∧
    (PushBlobPatch filetypeIsArchive "lib"
      "f47ac10b-58cc-4372-a567-0e02b2c3d479" "" "" [65]
      FS.empty).1.lookupFile
      ["testdata", "lib", "f47ac10b-58cc-4372-a567-0e02b2c3d479",
        "layer.json"] = some [65] ∧
    runHandler (PushBlobPatch filetypeIsArchive "lib"
      "f47ac10b-58cc-4372-a567-0e02b2c3d479" "5-5" "1" [66]
      (PushBlobPatch filetypeIsArchive "lib"
        "f47ac10b-58cc-4372-a567-0e02b2c3d479" "" "" [65] FS.empty).1).2 =
      ⟨200, none, [], []⟩ ∧
    (runHandler (PushBlobPatch filetypeIsArchive "lib"
      "f47ac10b-58cc-4372-a567-0e02b2c3d479" "0-0" "1" [66]
      FS.empty).2).status = 404 ∧
    (PushBlobPatch filetypeIsArchive "lib"
      "f47ac10b-58cc-4372-a567-0e02b2c3d479" "0-0" "1" [66]
      FS.empty).1 = FS.empty ∧
    errCodeOfOut (PushBlobPatch filetypeIsArchive "lib"
      "f47ac10b-58cc-4372-a567-0e02b2c3d479" "0-0" "1" [66]
      FS.empty).2 = some "UNKNOWN" := by
  refine ⟨?_, ?_, ?_, ?_, ?_, ?_, ?_⟩ <;> decide

/-! ## Claim C2 -/

/-- C2 counterexample: the push path never verifies the digest, so pushing
body `0x41` (`"A"`) monolithically under the digest of the EMPTY string
succeeds (201) and a GET of that digest returns `0x41`, whose SHA-256 is
`559aead0...`, not the `e3b0c442...` hex named in the digest. -/
theorem C2_blob_roundtrip_counterexample :
    (PushBlobPost filetypeIsArchive "lib" "application/octet-stream"
      "sha256:e3b0c44298fc1c149afbf4c8996fb92427ae41e4649b934ca495991b7852b855"
      "s" [65] FS.empty).2.status = some 201 ∧
    (runHandler (PullingBlobs "lib"
      "sha256:e3b0c44298fc1c149afbf4c8996fb92427ae41e4649b934ca495991b7852b855"
      (PushBlobPost filetypeIsArchive "lib" "application/octet-stream"
        "sha256:e3b0c44298fc1c149afbf4c8996fb92427ae41e4649b934ca495991b7852b855"
        "s" [65] FS.empty).1).2).status = 200 ∧
    (runHandler (PullingBlobs "lib"
      "sha256:e3b0c44298fc1c149afbf4c8996fb92427ae41e4649b934ca495991b7852b855"
      (PushBlobPost filetypeIsArchive "lib" "application/octet-stream"
        "sha256:e3b0c44298fc1c149afbf4c8996fb92427ae41e4649b934ca495991b7852b855"
        "s" [65] FS.empty).1).2).body = [65] ∧
    SHA.sha256hex [65] =
      "559aead08264d5795d3909718cdd05abd49572e84fe55590eef31a88a08fdffd" ∧
    SHA.sha256hex [65] ≠ digestHex
      "sha256:e3b0c44298fc1c149afbf4c8996fb92427ae41e4649b934ca495991b7852b855"
    := by
  refine ⟨?_, ?_, ?_, ?_, ?_⟩ <;> decide

/-- C2 (amended): the bytes served by `GET /v2/{N}/blobs/{D}` are exactly
the bytes pushed under `D` (monolithic POST path); the server performs no
digest verification, so the SHA-256 of the served bytes equals the hex of
`D` exactly when the client-supplied digest was honest. -/
theorem C2_blob_roundtrip_amended (isArch : List Nat → Bool)
    (name hex sid : String) (body : List Nat) (fs : FS)
    (hn : GoodName name)
    (hparse : digestParse ("sha256:" ++ hex) = some ("sha256:" ++ hex))
    (hd : PComp ("sha256:" ++ hex))
    (hclean1 : ∀ e ∈ fs.files,
      ¬ ("testdata" :: splitPath name ++ ["sha256:" ++ hex]) <+: e.1)
    (hclean2 : ∀ d ∈ fs.dirs,
      ("testdata" :: splitPath name ++ ["sha256:" ++ hex]) <+: d →
        d = "testdata" :: splitPath name ++ ["sha256:" ++ hex]) :
    (PushBlobPost isArch name "application/octet-stream" ("sha256:" ++ hex)
      sid body fs).2.status = some 201 ∧
    (runHandler (PullingBlobs name ("sha256:" ++ hex)
      (PushBlobPost isArch name "application/octet-stream"
        ("sha256:" ++ hex) sid body fs).1).2).status = 200 ∧
    (runHandler (PullingBlobs name ("sha256:" ++ hex)
      (PushBlobPost isArch name "application/octet-stream"
        ("sha256:" ++ hex) sid body fs).1).2).body = body ∧
    (SHA.sha256hex body = hex →
      SHA.sha256hex (runHandler (PullingBlobs name ("sha256:" ++ hex)
        (PushBlobPost isArch name "application/octet-stream"
          ("sha256:" ++ hex) sid body fs).1).2).body = hex) := by
  have hpath : PathJoinWithBase name ["sha256:" ++ hex] =
      "testdata" :: splitPath name ++ ["sha256:" ++ hex] :=
    pathJoinWithBase_plain name ["sha256:" ++ hex] hn (by simpa using hd)
  set dir : Path := "testdata" :: splitPath name ++ ["sha256:" ++ hex]
    with hdir
  set fname : String := "layer" ++ detectExt isArch (sniffBuffer body)
    with hfname
  have hpost : PushBlobPost isArch name "application/octet-stream"
      ("sha256:" ++ hex) sid body fs =
      ((fs.mkdirAll dir).createFile (dir ++ [fname]) body,
        { emptyOut with
          status := some 201,
          headers := [("Location",
            "/v2/" ++ name ++ "/blobs/" ++ ("sha256:" ++ hex))] }) := by
    unfold PushBlobPost
    rw [if_neg (by simp)]
    rw [hparse]
    unfold PutBlobByReference CreateLayer
    dsimp only
    rw [hpath, List.take_append_drop]
  set fs1 : FS := (fs.mkdirAll dir).createFile (dir ++ [fname]) body
    with hfs1
  have hcn : fs1.childNames dir = [fname] := by
    apply FS.childNames_single
    · left
      rw [List.mem_map]
      exact ⟨(dir ++ [fname], body), List.mem_cons_self .., rfl⟩
    · intro q hq hpre hlen
      rcases hq with hq | hq
      · rw [List.mem_map] at hq
        obtain ⟨e, he, heq⟩ := hq
        rcases List.mem_cons.mp he with he | he
        · rw [← heq, he, List.drop_left]
          rfl
        · exfalso
          have := List.mem_of_mem_filter he
          rw [← heq] at hpre
          exact hclean1 e this hpre
      · have hq2 : q ∈ dir :: fs.dirs := hq
        rcases List.mem_cons.mp hq2 with hq3 | hq3
        · rw [hq3] at hlen
          exact absurd hlen (by simp)
        · have := hclean2 q hq3 hpre
          rw [this] at hlen
          exact absurd hlen (by simp)
  have hfind : FindBlobByImage name ("sha256:" ++ hex) fs1 =
      .ok (fname, body) := by
    unfold FindBlobByImage
    dsimp only
    rw [hpath]
    have hde : fs1.dirExists dir = true := by
      rw [hfs1, FS.dirExists_createFile]
      apply Bool.or_eq_true_iff.mpr
      left
      exact FS.strictPrefix_of_extend _ _ (List.prefix_append ..) (by simp)
    rw [if_neg ?_]
    · have hpk : PickupFileinfo fs1 dir = .ok ⟨fname, body.length⟩ := by
        apply FS.pickup_single _ _ _ body hde hcn
        rw [hfs1]
        exact FS.lookupFile_createFile_self ..
      rw [hpk]
      dsimp only
      rw [hfs1]
      rw [FS.lookupFile_createFile_self]
    · unfold FS.statE
      rw [if_pos (by rw [hde]; simp)]
      simp
  have hpull : PullingBlobs name ("sha256:" ++ hex) fs1 =
      (fs1, { emptyOut with
        contentType := some (PredictDockerContentType fname),
        body := body }) := by
    unfold PullingBlobs
    rw [hparse]
    dsimp only
    rw [hfind]
  rw [hpost]
  dsimp only
  rw [hpull]
  refine ⟨rfl, rfl, rfl, ?_⟩
  intro h
  exact h

/-- Witness for C2 (amended): pushing the empty blob under its true digest
round-trips and the hash equation holds. -/
theorem C2_blob_roundtrip_amended_witness :
    (runHandler (PullingBlobs "lib"
      ("sha256:" ++
        "e3b0c44298fc1c149afbf4c8996fb92427ae41e4649b934ca495991b7852b855")
      (PushBlobPost filetypeIsArchive "lib" "application/octet-stream"
        ("sha256:" ++
          "e3b0c44298fc1c149afbf4c8996fb92427ae41e4649b934ca495991b7852b855")
        "s" [] FS.empty).1).2).body = [] ∧
    SHA.sha256hex (runHandler (PullingBlobs "lib"
      ("sha256:" ++
        "e3b0c44298fc1c149afbf4c8996fb92427ae41e4649b934ca495991b7852b855")
      (PushBlobPost filetypeIsArchive "lib" "application/octet-stream"
        ("sha256:" ++
          "e3b0c44298fc1c149afbf4c8996fb92427ae41e4649b934ca495991b7852b855")
        "s" [] FS.empty).1).2).body =
      "e3b0c44298fc1c149afbf4c8996fb92427ae41e4649b934ca495991b7852b855"
    := by
  have h := C2_blob_roundtrip_amended filetypeIsArchive "lib"
    "e3b0c44298fc1c149afbf4c8996fb92427ae41e4649b934ca495991b7852b855"
    "s" [] FS.empty (by decide) (by decide) (by decide) (by decide)
    (by decide)
  exact ⟨h.2.2.1, h.2.2.2 (by decide)⟩

/-! ## Codec round-trip lemmas -/

theorem expectLit_append (l r : List Char) : expectLit l (l ++ r) = some r := by
  induction l with
  | nil => rfl
  | cons c cs ih =>
    simp only [List.cons_append, expectLit, if_pos rfl]
    exact ih

theorem expectLit_cons_append (a : Char) (l r : List Char) :
    expectLit (a :: l) (a :: (l ++ r)) = some r := by
  rw [← List.cons_append]
  exact expectLit_append (a :: l) r

theorem expectLit_nil (cs : List Char) : expectLit [] cs = some cs := rfl

theorem expectLit_step (c : Char) (l cs : List Char) :
    expectLit (c :: l) (c :: cs) = expectLit l cs := by
  simp [expectLit]

theorem plainChar_ne_quote {c : Char} (h : plainChar c = true) : c ≠ '\x22' := by
  unfold plainChar at h
  simp only [Bool.and_eq_true, decide_eq_true_iff] at h
  exact h.1.1.1.1.2

theorem parseStrBody_append (s rest : List Char) (h : ∀ c ∈ s, plainChar c = true) :
    parseStrBody (s ++ '\x22' :: rest) = some (s, rest) := by
  induction s with
  | nil =>
    simp only [List.nil_append, parseStrBody]
    simp
  | cons c cs ih =>
    have hc := h c (List.mem_cons_self ..)
    simp only [List.cons_append, parseStrBody, List.append_eq]
    rw [if_neg (plainChar_ne_quote hc), if_pos hc,
      ih (fun x hx => h x (List.mem_cons_of_mem _ hx))]

theorem isDigit_ofNat {k : Nat} (h : k < 10) :
    (Char.ofNat (48 + k)).isDigit = true := by
  interval_cases k <;> decide

theorem digitVal_ofNat {k : Nat} (h : k < 10) :
    digitVal (Char.ofNat (48 + k)) = k := by
  interval_cases k <;> decide

theorem natCharsGo_spec (fuel : Nat) : ∀ n, n ≤ fuel →
    (∀ c ∈ natCharsGo fuel n, ∃ k, k < 10 ∧ c = Char.ofNat (48 + k)) ∧
    (∀ a, (natCharsGo fuel n).foldl (fun acc c => 10 * acc + digitVal c) a =
      a * 10 ^ (natCharsGo fuel n).length + n) ∧
    natCharsGo fuel n ≠ [] := by
  induction fuel with
  | zero =>
    intro n hn
    have hn0 : n = 0 := Nat.le_zero.mp hn
    subst hn0
    refine ⟨?_, ?_, by simp [natCharsGo]⟩
    · intro c hc
      simp only [natCharsGo, List.mem_singleton] at hc
      exact ⟨0, by norm_num, by simpa using hc⟩
    · intro a
      simp only [natCharsGo, List.foldl_cons, List.foldl_nil,
        List.length_singleton, pow_one]
      rw [show (0:Nat) % 10 = 0 from rfl,
        digitVal_ofNat (by norm_num : (0:Nat) < 10)]
      omega
  | succ f ih =>
    intro n hn
    by_cases h10 : n < 10
    · refine ⟨?_, ?_, by simp [natCharsGo, h10]⟩
      · intro c hc
        simp only [natCharsGo, if_pos h10, List.mem_singleton] at hc
        exact ⟨n, h10, hc⟩
      · intro a
        simp only [natCharsGo, if_pos h10, List.foldl_cons, List.foldl_nil,
          List.length_singleton, pow_one]
        rw [digitVal_ofNat h10]
        omega
    · have hdivle : n / 10 ≤ f := by omega
      obtain ⟨ihc, ihf, ihne⟩ := ih (n / 10) hdivle
      have hmod : n % 10 < 10 := Nat.mod_lt _ (by norm_num)
      refine ⟨?_, ?_, ?_⟩
      · intro c hc
        simp only [natCharsGo, if_neg h10, List.mem_append,
          List.mem_singleton] at hc
        rcases hc with hc | hc
        · exact ihc c hc
        · exact ⟨n % 10, hmod, hc⟩
      · intro a
        simp only [natCharsGo, if_neg h10, List.foldl_append, List.foldl_cons,
          List.foldl_nil, List.length_append, List.length_singleton]
        rw [ihf a, digitVal_ofNat hmod]
        calc 10 * (a * 10 ^ (natCharsGo f (n / 10)).length + n / 10) + n % 10
            = a * 10 ^ (natCharsGo f (n / 10)).length * 10 +
              (10 * (n / 10) + n % 10) := by ring
          _ = a * 10 ^ ((natCharsGo f (n / 10)).length + 1) + n := by
              rw [pow_succ, Nat.div_add_mod]; ring
      · simp [natCharsGo, if_neg h10]

theorem natChars_spec (n : Nat) :
    (∀ c ∈ natChars n, ∃ k, k < 10 ∧ c = Char.ofNat (48 + k)) ∧
    (∀ a, (natChars n).foldl (fun acc c => 10 * acc + digitVal c) a =
      a * 10 ^ (natChars n).length + n) ∧
    natChars n ≠ [] :=
  natCharsGo_spec n n le_rfl

theorem takeWhile_append_all {p : Char → Bool} (xs ys : List Char)
    (h : ∀ x ∈ xs, p x = true) :
    (xs ++ ys).takeWhile p = xs ++ ys.takeWhile p := by
  induction xs with
  | nil => simp
  | cons x t ih =>
    simp only [List.cons_append, List.takeWhile_cons,
      h x (List.mem_cons_self ..), ih (fun y hy => h y (List.mem_cons_of_mem _ hy))]
    simp

theorem dropWhile_append_all {p : Char → Bool} (xs ys : List Char)
    (h : ∀ x ∈ xs, p x = true) :
    (xs ++ ys).dropWhile p = ys.dropWhile p := by
  induction xs with
  | nil => simp
  | cons x t ih =>
    simp only [List.cons_append, List.dropWhile_cons,
      h x (List.mem_cons_self ..), if_pos]
    exact ih (fun y hy => h y (List.mem_cons_of_mem _ hy))

theorem parseNat_append (n : Nat) (c : Char) (rest : List Char)
    (hc : c.isDigit = false) :
    parseNat (natChars n ++ c :: rest) = some (n, c :: rest) := by
  obtain ⟨hdig, hfold, hne⟩ := natChars_spec n
  have hall : ∀ x ∈ natChars n, x.isDigit = true := by
    intro x hx
    obtain ⟨k, hk, rfl⟩ := hdig x hx
    exact isDigit_ofNat hk
  have hspan : (natChars n ++ c :: rest).span Char.isDigit =
      (natChars n, c :: rest) := by
    rw [List.span_eq_take_drop,
      takeWhile_append_all _ _ hall, dropWhile_append_all _ _ hall]
    simp [List.takeWhile_cons, List.dropWhile_cons, hc]
  unfold parseNat
  rw [hspan]
  obtain ⟨d0, ds, hds⟩ : ∃ d0 ds, natChars n = d0 :: ds := by
    cases h : natChars n with
    | nil => exact absurd h hne
    | cons a b => exact ⟨a, b, rfl⟩
  rw [hds]
  have := hfold 0
  rw [hds] at this
  simp only [this]
  simp

theorem parseDesc_encode (d : Descriptor) (rest : List Char) (hd : PlainDesc d) :
    parseDesc (encodeDesc d ++ rest) = some (d, rest) := by
  obtain ⟨hmt, hdg⟩ := hd
  unfold parseDesc encodeDesc
  simp only [List.append_assoc, List.singleton_append, List.cons_append,
    List.nil_append, quoteChar]
  simp only [expectLit_step, expectLit_nil]
  rw [parseStrBody_append _ _ hmt]
  simp only [expectLit_step, expectLit_nil]
  rw [parseNat_append _ _ _ (by decide)]
  simp only [expectLit_step, expectLit_nil]
  rw [parseStrBody_append _ _ hdg]
  simp only [expectLit_step, expectLit_nil]
  rfl

theorem parseDescs_encodeTail (ds : List Descriptor) :
    ∀ (fuel : Nat) (rest : List Char),
    ds ≠ [] → ds.length ≤ fuel → (∀ d ∈ ds, PlainDesc d) →
    parseDescs fuel (encodeDescsTail ds ++ rest) = some (ds, rest) := by
  induction ds with
  | nil => intro fuel rest hne _ _; exact absurd rfl hne
  | cons d t ih =>
    intro fuel rest _ hlen hpl
    cases fuel with
    | zero => simp at hlen
    | succ f =>
      cases t with
      | nil =>
        show parseDescs (f + 1) ((encodeDesc d ++ [']']) ++ rest) = some ([d], rest)
        rw [List.append_assoc, List.singleton_append]
        simp only [parseDescs]
        rw [parseDesc_encode d _ (hpl d (List.mem_cons_self ..))]
        dsimp only
        simp only [List.head?_cons, List.tail_cons]
        simp
      | cons t0 t' =>
        show parseDescs (f + 1)
          (((encodeDesc d ++ [',']) ++ encodeDescsTail (t0 :: t')) ++ rest) =
          some (d :: t0 :: t', rest)
        simp only [List.append_assoc, List.singleton_append]
        simp only [parseDescs]
        rw [parseDesc_encode d _ (hpl d (List.mem_cons_self ..))]
        have hrec := ih f rest (by simp) (by simpa using hlen)
          (fun x hx => hpl x (List.mem_cons_of_mem _ hx))
        dsimp only
        simp [hrec]

theorem le_length_encodeDescsTail (ds : List Descriptor) (rest : List Char) :
    ds.length ≤ (encodeDescsTail ds ++ rest).length := by
  induction ds generalizing rest with
  | nil => simp
  | cons d t ih =>
    cases t with
    | nil =>
      simp only [encodeDescsTail, List.length_append, List.length_cons,
        List.length_singleton, List.length_nil]
      omega
    | cons t0 t' =>
      have h := ih rest
      simp only [encodeDescsTail, List.length_append, List.length_cons,
        List.length_singleton, List.length_nil] at h ⊢
      omega

theorem encodeDesc_head (d : Descriptor) :
    ∃ y, encodeDesc d = '\x7b' :: y := by
  unfold encodeDesc
  rw [show "\x7b\x22mediaType\x22:\x22".data =
    '\x7b' :: "\x22mediaType\x22:\x22".data from by decide]
  simp only [List.cons_append, List.append_assoc]
  exact ⟨_, rfl⟩

theorem encodeDescsTail_head (d : Descriptor) (t : List Descriptor) :
    ∃ tl, encodeDescsTail (d :: t) = '\x7b' :: tl := by
  obtain ⟨y, hy⟩ := encodeDesc_head d
  cases t with
  | nil =>
    refine ⟨y ++ [']'], ?_⟩
    show encodeDesc d ++ [']'] = _
    rw [hy]
    simp [List.cons_append]
  | cons t0 t' =>
    refine ⟨y ++ ([','] ++ encodeDescsTail (t0 :: t')), ?_⟩
    show (encodeDesc d ++ [',']) ++ encodeDescsTail (t0 :: t') = _
    rw [hy]
    simp [List.cons_append, List.append_assoc]

theorem parseLayers_encode (ds : List Descriptor) (rest : List Char)
    (h : ∀ d ∈ ds, PlainDesc d) :
    parseLayers (encodeLayers ds ++ rest) = some (ds, rest) := by
  cases ds with
  | nil =>
    unfold parseLayers encodeLayers
    rw [expectLit_append]
  | cons d t =>
    obtain ⟨tl, htl⟩ := encodeDescsTail_head d t
    show parseLayers ((['['] ++ encodeDescsTail (d :: t)) ++ rest) =
      some (d :: t, rest)
    rw [List.append_assoc, List.singleton_append, htl, List.cons_append]
    unfold parseLayers
    have hexp : expectLit "[]".data ('[' :: '\x7b' :: (tl ++ rest)) = none := by
      rw [show "[]".data = ['[', ']'] from by decide]
      simp [expectLit]
    rw [hexp]
    dsimp only
    simp only [List.head?_cons, List.tail_cons, if_true]
    rw [← List.cons_append, ← htl]
    exact parseDescs_encodeTail (d :: t) _ rest (by simp)
      (le_length_encodeDescsTail (d :: t) rest) h

theorem parseManifest_encode (m : Manifest) (rest : List Char)
    (hm : PlainManifest m) :
    parseManifest (encodeManifest m ++ rest) = some (m, rest) := by
  obtain ⟨hmt, hcfg, hlay⟩ := hm
  unfold parseManifest encodeManifest
  simp only [List.append_assoc, List.singleton_append, List.cons_append,
    List.nil_append, quoteChar]
  simp only [expectLit_step, expectLit_nil]
  rw [parseNat_append _ _ _ (by decide)]
  simp only [expectLit_step, expectLit_nil]
  rw [parseStrBody_append _ _ hmt]
  simp only [expectLit_step, expectLit_nil]
  rw [parseDesc_encode m.config _ hcfg]
  simp only [expectLit_step, expectLit_nil]
  rw [parseLayers_encode m.layers _ hlay]
  simp only [expectLit_step, expectLit_nil]
  rfl

theorem plainChar_toNat_lt {c : Char} (h : plainChar c = true) :
    c.toNat < 55296 := by
  unfold plainChar at h
  simp only [Bool.and_eq_true, decide_eq_true_iff] at h
  have := h.1.1.1.1.1.2
  omega

theorem natChars_toNat_lt (n : Nat) : ∀ c ∈ natChars n, c.toNat < 55296 := by
  intro c hc
  obtain ⟨k, hk, rfl⟩ := (natChars_spec n).1 c hc
  rw [char_toNat_ofNat _ (by omega)]
  omega

theorem encodeDesc_chars (d : Descriptor) (hd : PlainDesc d) :
    ∀ c ∈ encodeDesc d, c.toNat < 55296 := by
  unfold encodeDesc
  simp only [List.forall_mem_append, and_assoc]
  refine ⟨by decide, ?_, by decide, by decide, natChars_toNat_lt d.size,
    by decide, ?_, by decide, by decide⟩
  · intro c hc
    exact plainChar_toNat_lt (hd.1 c hc)
  · intro c hc
    exact plainChar_toNat_lt (hd.2 c hc)

theorem encodeDescsTail_chars (ds : List Descriptor)
    (h : ∀ d ∈ ds, PlainDesc d) :
    ∀ c ∈ encodeDescsTail ds, c.toNat < 55296 := by
  induction ds with
  | nil => intro c hc; simp [encodeDescsTail] at hc
  | cons d t ih =>
    cases t with
    | nil =>
      show ∀ c ∈ encodeDesc d ++ [']'], c.toNat < 55296
      simp only [List.forall_mem_append, and_assoc]
      exact ⟨encodeDesc_chars d (h d (List.mem_cons_self ..)), by decide⟩
    | cons t0 t' =>
      show ∀ c ∈ (encodeDesc d ++ [',']) ++ encodeDescsTail (t0 :: t'),
        c.toNat < 55296
      simp only [List.forall_mem_append, and_assoc]
      exact ⟨encodeDesc_chars d (h d (List.mem_cons_self ..)), by decide,
        ih (fun x hx => h x (List.mem_cons_of_mem _ hx))⟩

theorem encodeLayers_chars (ds : List Descriptor)
    (h : ∀ d ∈ ds, PlainDesc d) :
    ∀ c ∈ encodeLayers ds, c.toNat < 55296 := by
  cases ds with
  | nil => decide
  | cons d t =>
    show ∀ c ∈ ['['] ++ encodeDescsTail (d :: t), c.toNat < 55296
    simp only [List.forall_mem_append]
    exact ⟨by decide, encodeDescsTail_chars (d :: t) h⟩

theorem encodeManifest_chars (m : Manifest) (hm : PlainManifest m) :
    ∀ c ∈ encodeManifest m, c.toNat < 55296 := by
  unfold encodeManifest
  simp only [List.forall_mem_append, and_assoc]
  refine ⟨by decide, natChars_toNat_lt m.schemaVersion, by decide, ?_,
    by decide, by decide, encodeDesc_chars m.config hm.2.1, by decide,
    encodeLayers_chars m.layers hm.2.2, by decide⟩
  intro c hc
  exact plainChar_toNat_lt (hm.1 c hc)

theorem decode_encode (m : Manifest) (hm : PlainManifest m) :
    decodeManifest (encodeManifestBytes m) = some m := by
  unfold decodeManifest encodeManifestBytes
  rw [List.map_append, List.map_map]
  have hmap : List.map (Char.ofNat ∘ Char.toNat) (encodeManifest m) =
      encodeManifest m := by
    conv_rhs => rw [← List.map_id (encodeManifest m)]
    apply List.map_congr_left
    intro c hc
    exact char_ofNat_toNat c (encodeManifest_chars m hm c hc)
  rw [hmap, show List.map Char.ofNat [10] = [Char.ofNat 10] from rfl]
  rw [parseManifest_encode m _ hm]


/-! ## Digest string shape lemmas -/

theorem sha256_bytes_lt (msg : List Nat) : ∀ b ∈ SHA.sha256 msg, b < 256 := by
  intro b hb
  unfold SHA.sha256 at hb
  simp only [List.mem_flatMap, List.mem_cons, List.not_mem_nil, or_false] at hb
  obtain ⟨w, _, hw⟩ := hb
  rcases hw with rfl | rfl | rfl | rfl <;> exact Nat.mod_lt _ (by norm_num)

theorem hexChar_props {k : Nat} (h : k < 16) :
    (SHA.hexChar k).toNat < 128 ∧ (SHA.hexChar k).toNat ≠ 47 := by
  interval_cases k <;> exact ⟨by decide, by decide⟩

theorem sha256hex_chars (msg : List Nat) :
    ∀ c ∈ SHA.bytesToHex (SHA.sha256 msg), c.toNat < 128 ∧ c.toNat ≠ 47 := by
  intro c hc
  unfold SHA.bytesToHex at hc
  simp only [List.mem_flatMap, List.mem_cons, List.not_mem_nil, or_false] at hc
  obtain ⟨b, hb, hc⟩ := hc
  have hblt := sha256_bytes_lt msg b hb
  rcases hc with rfl | rfl
  · exact hexChar_props (by omega)
  · exact hexChar_props (by omega)

theorem sha256sumStr_data (msg : List Nat) :
    (sha256sumStr msg).data =
      's' :: ('h' :: ('a' :: ('2' :: ('5' :: ('6' :: (':' ::
        SHA.bytesToHex (SHA.sha256 msg))))))) := by
  unfold sha256sumStr SHA.sha256hex
  rw [String.data_append]
  rfl

theorem pcomp_sha256sumStr (msg : List Nat) : PComp (sha256sumStr msg) := by
  have hd := sha256sumStr_data msg
  refine ⟨?_, ?_, ?_, ?_⟩
  · intro h
    rw [h] at hd
    exact absurd hd (by simp)
  · intro h
    rw [h] at hd
    simp at hd
  · intro h
    rw [h] at hd
    simp at hd
  · intro h
    rw [hd] at h
    simp only [List.mem_cons] at h
    rcases h with h | h | h | h | h | h | h | h
    · exact absurd h (by decide)
    · exact absurd h (by decide)
    · exact absurd h (by decide)
    · exact absurd h (by decide)
    · exact absurd h (by decide)
    · exact absurd h (by decide)
    · exact absurd h (by decide)
    · exact (sha256hex_chars msg _ h).2 rfl

theorem sha256sumStr_ne_tags (msg : List Nat) : sha256sumStr msg ≠ "tags" := by
  intro h
  have hd := sha256sumStr_data msg
  rw [h] at hd
  simp at hd

theorem ascii_sha256sumStr (msg : List Nat) : AsciiStr (sha256sumStr msg) := by
  intro c hc
  rw [sha256sumStr_data msg] at hc
  simp only [List.mem_cons] at hc
  rcases hc with rfl | rfl | rfl | rfl | rfl | rfl | rfl | hc
  · decide
  · decide
  · decide
  · decide
  · decide
  · decide
  · decide
  · exact (sha256hex_chars msg c hc).1



/-! ## C3: manifest round trip through `CreateManifest`/`FindManifestByImage` -/

theorem joinRel_plain (p : Path) (s : String) (hp : ∀ c ∈ p, PComp c)
    (hs : PComp s) : joinRel p s = p ++ [s] := by
  unfold joinRel
  rw [splitPath_pcomp s hs]
  apply cleanParts_plain
  intro c hc
  rcases List.mem_append.mp hc with h | h
  · exact hp c h
  · rw [List.mem_singleton] at h
    subst h
    exact hs

theorem basePlain (name : String) (hn : GoodName name) :
    ∀ c ∈ ("testdata" :: splitPath name), PComp c := by
  intro c hc
  rcases List.mem_cons.mp hc with rfl | h
  · decide
  · exact hn.2 c h

/-- **C3.**  If `CreateManifest(body, N, T)` succeeds after decoding `body`
to `m`, with digest `D = sha256:<hex of body>`, then: the result is
`(m, D)`; the tag file `B/N/tags/T` holds exactly the bytes of `D`;
`FindManifestByImage(N, T)` and `FindManifestByImage(N, D)` both succeed
with the same manifest `m`; the `GET /manifests/{T}` and `GET /manifests/{D}`
responses are byte-equivalent (both the canonical encoding of `m`); and the
manifest-put response carries `Docker-Content-Digest = D` (status 201).
Side conditions: the name and tag are well formed, `m` is within the strict
decoder's fragment (printable ASCII strings, as Go would re-encode them),
the tag is not itself the digest string and no pre-existing tag file is
named `D`. -/
theorem C3_manifest_roundtrip (name T : String) (body : List Nat) (m : Manifest)
    (fs : FS) (hn : GoodName name) (hT : PComp T)
    (hdec : decodeManifest body = some m) (hm : PlainManifest m)
    (hTD : T ≠ sha256sumStr body)
    (hfresh : fs.statE ("testdata" :: splitPath name ++
      ["tags", sha256sumStr body]) = some .notExist) :
    (CreateManifest body name T fs).2 = .ok (m, sha256sumStr body) ∧
    (CreateManifest body name T fs).1.lookupFile
      ("testdata" :: splitPath name ++ ["tags", T]) =
      some (bytesOfString (sha256sumStr body)) ∧
    FindManifestByImage name T (CreateManifest body name T fs).1 = .ok m ∧
    FindManifestByImage name (sha256sumStr body)
      (CreateManifest body name T fs).1 = .ok m ∧
    (runHandler (PullingManifests name T
      (CreateManifest body name T fs).1).2).body =
      (runHandler (PullingManifests name (sha256sumStr body)
        (CreateManifest body name T fs).1).2).body ∧
    (runHandler (PullingManifests name T
      (CreateManifest body name T fs).1).2).body = encodeManifestBytes m ∧
    (PushManifestPut name T body fs).2.headers =
      [("Docker-Content-Digest", sha256sumStr body),
        ("Location", "/v2/" ++ name ++ "/manifests/" ++ T)] ∧
    (PushManifestPut name T body fs).2.status = some 201 := by
  have hDp : PComp (sha256sumStr body) := pcomp_sha256sumStr body
  have hDtags : sha256sumStr body ≠ "tags" := sha256sumStr_ne_tags body
  have hbp := basePlain name hn
  -- path computations
  have hpath_tags : PathJoinWithBase name [baseTagDir] =
      "testdata" :: splitPath name ++ ["tags"] :=
    pathJoinWithBase_plain name [baseTagDir] hn (by decide)
  have hplain_tags : ∀ c ∈ ("testdata" :: splitPath name ++ ["tags"]),
      PComp c := by
    intro c hc
    rcases List.mem_cons.mp hc with rfl | hc
    · decide
    · rcases List.mem_append.mp hc with h | h
      · exact hn.2 c h
      · rw [List.mem_singleton] at h
        subst h
        decide
  have hjoin_tagT : joinRel ("testdata" :: splitPath name ++ ["tags"]) T =
      "testdata" :: splitPath name ++ ["tags", T] := by
    rw [joinRel_plain _ _ hplain_tags hT]
    simp
  have hpath_mdir : PathJoinWithBase name [sha256sumStr body] =
      "testdata" :: splitPath name ++ [sha256sumStr body] :=
    pathJoinWithBase_plain name [sha256sumStr body] hn (by
      intro c hc
      rw [List.mem_singleton] at hc
      subst hc
      exact hDp)
  have hplain_mdir : ∀ c ∈ ("testdata" :: splitPath name ++
      [sha256sumStr body]), PComp c := by
    intro c hc
    rcases List.mem_cons.mp hc with rfl | hc
    · decide
    · rcases List.mem_append.mp hc with h | h
      · exact hn.2 c h
      · rw [List.mem_singleton] at h
        subst h
        exact hDp
  have hjoin_mj : joinRel ("testdata" :: splitPath name ++ [sha256sumStr body])
      "manifest.json" =
      "testdata" :: splitPath name ++ [sha256sumStr body, "manifest.json"] := by
    rw [joinRel_plain _ _ hplain_mdir (by decide)]
    simp
  -- the computation of CreateManifest
  have hCM : CreateManifest body name T fs =
      ((((fs.mkdirAll ("testdata" :: splitPath name ++ ["tags"])).createFile
          ("testdata" :: splitPath name ++ ["tags", T])
          (bytesOfString (sha256sumStr body))).mkdirAll
          ("testdata" :: splitPath name ++ [sha256sumStr body])).createFile
          ("testdata" :: splitPath name ++ [sha256sumStr body, "manifest.json"])
          (encodeManifestBytes m),
        .ok (m, sha256sumStr body)) := by
    unfold CreateManifest
    rw [hdec]
    dsimp only
    rw [hpath_tags, hjoin_tagT, hpath_mdir, hjoin_mj]
  -- path inequalities
  have hne1 : ("testdata" :: splitPath name ++ ["tags", T]) ≠
      ("testdata" :: splitPath name ++
        [sha256sumStr body, "manifest.json"]) := by
    intro h
    have h3 := List.append_cancel_left h
    simp only [List.cons.injEq] at h3
    exact hDtags h3.1.symm
  have hne2 : ("testdata" :: splitPath name ++ ["tags", sha256sumStr body]) ≠
      ("testdata" :: splitPath name ++
        [sha256sumStr body, "manifest.json"]) := by
    intro h
    have h3 := List.append_cancel_left h
    simp only [List.cons.injEq] at h3
    exact hDtags h3.1.symm
  have hne3 : ("testdata" :: splitPath name ++ ["tags", sha256sumStr body]) ≠
      ("testdata" :: splitPath name ++ ["tags", T]) := by
    intro h
    have h3 := List.append_cancel_left h
    simp only [List.cons.injEq] at h3
    exact hTD h3.2.1.symm
  -- the new filesystem and its tag file
  have htagfile : (CreateManifest body name T fs).1.lookupFile
      ("testdata" :: splitPath name ++ ["tags", T]) =
      some (bytesOfString (sha256sumStr body)) := by
    rw [hCM]
    dsimp only
    rw [FS.lookupFile_createFile_ne _ _ _ _ hne1, FS.lookupFile_mkdirAll,
      FS.lookupFile_createFile_self]
  have hmp_lookup : (CreateManifest body name T fs).1.lookupFile
      ("testdata" :: splitPath name ++
        [sha256sumStr body, "manifest.json"]) =
      some (encodeManifestBytes m) := by
    rw [hCM]
    dsimp only
    rw [FS.lookupFile_createFile_self]
  have hstat_tag : (CreateManifest body name T fs).1.statE
      ("testdata" :: splitPath name ++ ["tags", T]) = none := by
    unfold FS.statE
    rw [show (CreateManifest body name T fs).1.fileExists
        ("testdata" :: splitPath name ++ ["tags", T]) = true from by
      unfold FS.fileExists
      rw [htagfile]
      rfl]
    simp
  have hstat_mp : (CreateManifest body name T fs).1.statE
      ("testdata" :: splitPath name ++
        [sha256sumStr body, "manifest.json"]) = none := by
    unfold FS.statE
    rw [show (CreateManifest body name T fs).1.fileExists
        ("testdata" :: splitPath name ++
          [sha256sumStr body, "manifest.json"]) = true from by
      unfold FS.fileExists
      rw [hmp_lookup]
      rfl]
    simp
  -- the D tag file does not exist in the new filesystem either
  have hff : fs.fileExists ("testdata" :: splitPath name ++
      ["tags", sha256sumStr body]) = false ∧
      fs.dirExists ("testdata" :: splitPath name ++
        ["tags", sha256sumStr body]) = false := by
    unfold FS.statE at hfresh
    by_cases h : (fs.fileExists ("testdata" :: splitPath name ++
        ["tags", sha256sumStr body]) ||
        fs.dirExists ("testdata" :: splitPath name ++
          ["tags", sha256sumStr body])) = true
    · rw [if_pos h] at hfresh
      exact absurd hfresh (by simp)
    · simp only [Bool.not_eq_true] at h
      cases hb1 : fs.fileExists ("testdata" :: splitPath name ++
          ["tags", sha256sumStr body]) with
      | true =>
        rw [hb1] at h
        simp at h
      | false =>
        cases hb2 : fs.dirExists ("testdata" :: splitPath name ++
            ["tags", sha256sumStr body]) with
        | true =>
          rw [hb1, hb2] at h
          simp at h
        | false => exact ⟨rfl, rfl⟩
  have hlookup_none : fs.lookupFile ("testdata" :: splitPath name ++
      ["tags", sha256sumStr body]) = none := by
    have h := hff.1
    unfold FS.fileExists at h
    cases hl : fs.lookupFile ("testdata" :: splitPath name ++
        ["tags", sha256sumStr body]) with
    | none => rfl
    | some c =>
      rw [hl] at h
      simp at h
  have hfe4 : (CreateManifest body name T fs).1.fileExists
      ("testdata" :: splitPath name ++ ["tags", sha256sumStr body]) = false := by
    rw [hCM]
    unfold FS.fileExists
    dsimp only
    rw [FS.lookupFile_createFile_ne _ _ _ _ hne2, FS.lookupFile_mkdirAll,
      FS.lookupFile_createFile_ne _ _ _ _ hne3, FS.lookupFile_mkdirAll,
      hlookup_none]
    rfl
  have hnp1 : ¬ (("testdata" :: splitPath name ++
      ["tags", sha256sumStr body]) <+:
      ("testdata" :: splitPath name ++
        [sha256sumStr body, "manifest.json"])) := by
    intro h
    have h2 := (List.prefix_append_right_inj _).mp h
    rw [List.cons_prefix_cons] at h2
    exact hDtags h2.1.symm
  have hnp2 : ¬ (("testdata" :: splitPath name ++
      ["tags", sha256sumStr body]) <+:
      ("testdata" :: splitPath name ++ [sha256sumStr body])) := by
    intro h
    have h2 := (List.prefix_append_right_inj _).mp h
    rw [List.cons_prefix_cons] at h2
    exact hDtags h2.1.symm
  have hnp3 : ¬ (("testdata" :: splitPath name ++
      ["tags", sha256sumStr body]) <+:
      ("testdata" :: splitPath name ++ ["tags", T])) := by
    intro h
    have h2 := (List.prefix_append_right_inj _).mp h
    rw [List.cons_prefix_cons] at h2
    have h3 := h2.2
    rw [List.cons_prefix_cons] at h3
    exact hTD h3.1.symm
  have hnp4 : ¬ (("testdata" :: splitPath name ++
      ["tags", sha256sumStr body]) <+:
      ("testdata" :: splitPath name ++ ["tags"])) := by
    intro h
    have h2 := (List.prefix_append_right_inj _).mp h
    rw [List.cons_prefix_cons] at h2
    have h3 := h2.2
    rw [List.prefix_nil] at h3
    exact absurd h3 (by simp)
  have hne_mdir : ("testdata" :: splitPath name ++
      ["tags", sha256sumStr body]) ≠
      ("testdata" :: splitPath name ++ [sha256sumStr body]) := by
    intro h
    exact hnp2 (h ▸ List.prefix_refl _)
  have hne_tagsdir : ("testdata" :: splitPath name ++
      ["tags", sha256sumStr body]) ≠
      ("testdata" :: splitPath name ++ ["tags"]) := by
    intro h
    exact hnp4 (h ▸ List.prefix_refl _)
  have hde4 : (CreateManifest body name T fs).1.dirExists
      ("testdata" :: splitPath name ++ ["tags", sha256sumStr body]) = false := by
    rw [hCM]
    dsimp only
    rw [FS.dirExists_createFile, FS.dirExists_mkdirAll,
      FS.dirExists_createFile, FS.dirExists_mkdirAll, hff.2]
    rw [ FS.strictPrefix_eq_false_of_not_prefix _ _ hnp1,
      FS.strictPrefix_eq_false_of_not_prefix _ _ hnp2,
      FS.strictPrefix_eq_false_of_not_prefix _ _ hnp3,
      FS.strictPrefix_eq_false_of_not_prefix _ _ hnp4,
      decide_eq_false hne_mdir, decide_eq_false hne_tagsdir]
    simp
  obtain ⟨e0, he0⟩ : ∃ e0, (CreateManifest body name T fs).1.statE
      ("testdata" :: splitPath name ++ ["tags", sha256sumStr body]) =
      some e0 := by
    unfold FS.statE
    rw [hfe4, hde4]
    simp only [Bool.or_self, Bool.false_eq_true, if_false]
    by_cases h : ((CreateManifest body name T fs).1.files.any
        (fun e => FS.strictPrefix e.1
          ("testdata" :: splitPath name ++
            ["tags", sha256sumStr body]))) = true
    · exact ⟨.notDir, by rw [if_pos h]⟩
    · exact ⟨.notExist, by rw [if_neg h]⟩
  -- path of the tag file as the finder computes it
  have hfpath_T : PathJoinWithBase name [baseTagDir, T] =
      "testdata" :: splitPath name ++ ["tags", T] :=
    pathJoinWithBase_plain name [baseTagDir, T] hn (by
      intro c hc
      rcases List.mem_cons.mp hc with rfl | hc
      · decide
      · rw [List.mem_singleton] at hc
        subst hc
        exact hT)
  have hfpath_D : PathJoinWithBase name [baseTagDir, sha256sumStr body] =
      "testdata" :: splitPath name ++ ["tags", sha256sumStr body] :=
    pathJoinWithBase_plain name [baseTagDir, sha256sumStr body] hn (by
      intro c hc
      rcases List.mem_cons.mp hc with rfl | hc
      · decide
      · rw [List.mem_singleton] at hc
        subst hc
        exact hDp)
  have hfpath_mp : PathJoinWithBase name [sha256sumStr body, "manifest.json"] =
      "testdata" :: splitPath name ++ [sha256sumStr body, "manifest.json"] :=
    pathJoinWithBase_plain name [sha256sumStr body, "manifest.json"] hn (by
      intro c hc
      rcases List.mem_cons.mp hc with rfl | hc
      · exact hDp
      · rw [List.mem_singleton] at hc
        subst hc
        decide)
  -- find by tag
  have hfindT : FindManifestByImage name T (CreateManifest body name T fs).1 =
      .ok m := by
    unfold FindManifestByImage
    rw [hfpath_T]
    dsimp only
    rw [hstat_tag]
    dsimp only
    rw [htagfile]
    dsimp only
    rw [stringOfBytes_bytesOfString _ (ascii_sha256sumStr body)]
    rw [hfpath_mp, hstat_mp]
    rw [if_neg (by simp)]
    rw [hmp_lookup]
    dsimp only
    rw [decode_encode m hm]
  -- find by digest
  have hfindD : FindManifestByImage name (sha256sumStr body)
      (CreateManifest body name T fs).1 = .ok m := by
    unfold FindManifestByImage
    rw [hfpath_D]
    dsimp only
    rw [he0]
    dsimp only
    rw [hfpath_mp, hstat_mp]
    rw [if_neg (by simp)]
    rw [hmp_lookup]
    dsimp only
    rw [decode_encode m hm]
  -- response bodies
  have hbodyT : (runHandler (PullingManifests name T
      (CreateManifest body name T fs).1).2).body = encodeManifestBytes m := by
    unfold PullingManifests
    rw [hfindT]
    rfl
  have hbodyD : (runHandler (PullingManifests name (sha256sumStr body)
      (CreateManifest body name T fs).1).2).body = encodeManifestBytes m := by
    unfold PullingManifests
    rw [hfindD]
    rfl
  -- manifest put
  have hput : PushManifestPut name T body fs =
      ((CreateManifest body name T fs).1,
        { emptyOut with
          status := some 201,
          headers := [("Docker-Content-Digest", sha256sumStr body),
            ("Location", "/v2/" ++ name ++ "/manifests/" ++ T)] }) := by
    unfold PushManifestPut
    rw [hCM]
  refine ⟨by rw [hCM], htagfile, hfindT, hfindD, ?_, hbodyT, ?_, ?_⟩
  · rw [hbodyT, hbodyD]
  · rw [hput]
  · rw [hput]

/-- Witness for C3: a concrete two-layerless manifest pushed as `lib:latest`
is found again both by tag and by its computed digest. -/
theorem C3_manifest_roundtrip_witness :
    FindManifestByImage "lib" "latest"
      (CreateManifest (encodeManifestBytes ⟨2, "x", ⟨"y", 3, "z"⟩, []⟩)
        "lib" "latest" FS.empty).1 = .ok ⟨2, "x", ⟨"y", 3, "z"⟩, []⟩ ∧
    FindManifestByImage "lib"
      (sha256sumStr (encodeManifestBytes ⟨2, "x", ⟨"y", 3, "z"⟩, []⟩))
      (CreateManifest (encodeManifestBytes ⟨2, "x", ⟨"y", 3, "z"⟩, []⟩)
        "lib" "latest" FS.empty).1 = .ok ⟨2, "x", ⟨"y", 3, "z"⟩, []⟩ := by
  have h := C3_manifest_roundtrip "lib" "latest"
    (encodeManifestBytes ⟨2, "x", ⟨"y", 3, "z"⟩, []⟩) ⟨2, "x", ⟨"y", 3, "z"⟩, []⟩
    FS.empty (by decide) (by decide) (by decide) (by decide) (by decide)
    (by decide)
  exact ⟨h.2.2.1, h.2.2.2.1⟩

end Registry
